import Mathlib

/-!
Verification development for the realtime-danmaku message admission and
moderation pipeline.  The definitions below are a shallow embedding of
`src/backend/src/filterRules.js` and `src/backend/src/socketHandlers.js`
(including the `redisUtils` counter-store helpers): text is modelled as
`List Char`, the external counter store as an explicit association list
with lazy TTL expiry, and all stateful operations as pure state-passing
functions.  Time is measured in milliseconds; Redis TTLs given in seconds
are converted by multiplying with 1000.
-/

set_option maxRecDepth 4000

abbrev Str := List Char

/-- The mask character used by the sensitive-word filter. -/
def starC : Char := '*'

/-- JavaScript whitespace as used by `String.prototype.trim`. -/
def isJsWhitespace (c : Char) : Bool :=
  c = ' ' || c = '\t' || c = '\n' || c = '\r' ||
  c = Char.ofNat 11 || c = Char.ofNat 12 || c = Char.ofNat 160 || c = Char.ofNat 65279

/-- Model of JavaScript `content.trim()`: strip whitespace at both ends. -/
def jsTrim (s : Str) : Str :=
  ((s.dropWhile isJsWhitespace).reverse.dropWhile isJsWhitespace).reverse

/-! ## Trie (sensitive-word automaton), from `filterRules.js` lines 4-81 -/

inductive TrieNode where
  | node (children : List (Char × TrieNode)) (isEnd : Bool)

def TrieNode.children : TrieNode → List (Char × TrieNode)
  | .node cs _ => cs

def TrieNode.isEnd : TrieNode → Bool
  | .node _ e => e

/-- `node.children.get(c)` on the JS `Map`. -/
def lookupChild : List (Char × TrieNode) → Char → Option TrieNode
  | [], _ => none
  | (d, t) :: rest, c => if d = c then some t else lookupChild rest c

/-- `node.children.set(c, t)` when `c` is already a key. -/
def updateChild : List (Char × TrieNode) → Char → TrieNode → List (Char × TrieNode)
  | [], _, _ => []
  | (d, u) :: rest, c, t => if d = c then (d, t) :: rest else (d, u) :: updateChild rest c t

/-- `Trie.addWord` from `filterRules.js`. -/
def TrieNode.addWord : TrieNode → Str → TrieNode
  | .node cs _, [] => .node cs true
  | .node cs e, c :: w =>
    match lookupChild cs c with
    | some child => .node (updateChild cs c (child.addWord w)) e
    | none => .node (cs ++ [(c, TrieNode.addWord (.node [] false) w)]) e

/-- Fresh trie with every word of the list added, as in `initializeFilterRules`. -/
def buildTrie (ws : List Str) : TrieNode :=
  ws.foldl TrieNode.addWord (.node [] false)

/-- A recorded sensitive-word match: `{word, start, end}` in the JS code. -/
structure WMatch where
  word : Str
  start : Nat
  stop : Nat
deriving DecidableEq, Repr

/-- The inner `while` loop of `Trie.check`: walk the trie along the text,
recording a match at every terminal node reached. -/
def TrieNode.walk : TrieNode → Str → Nat → Nat → Str → List WMatch
  | _, [], _, _, _ => []
  | nd, c :: rest, i, j, cur =>
    match lookupChild nd.children c with
    | none => []
    | some child =>
      let tail := child.walk rest i (j + 1) (cur ++ [c])
      if child.isEnd then ⟨cur ++ [c], i, j + 1⟩ :: tail else tail

/-- `Trie.check`: scan every start offset; returns the list of matches. -/
def Trie.check (root : TrieNode) (text : Str) : List WMatch :=
  ((List.range text.length).map (fun i => root.walk (text.drop i) i i [])).flatten

/-- Stable insertion into a list sorted by descending word length. -/
def insertByLenDesc (m : WMatch) : List WMatch → List WMatch
  | [] => [m]
  | y :: ys =>
    if m.word.length ≥ y.word.length then m :: y :: ys else y :: insertByLenDesc m ys

/-- Model of `words.sort((a, b) => b.word.length - a.word.length)`:
a stable sort by descending matched-word length. -/
def sortByLenDesc : List WMatch → List WMatch
  | [] => []
  | m :: ms => insertByLenDesc m (sortByLenDesc ms)

/-- `filteredText.substring(0, s) + repl + filteredText.substring(e)`. -/
def replaceSpan (txt : Str) (s : Nat) (repl : Str) (e : Nat) : Str :=
  txt.take s ++ repl ++ txt.drop e

/-- The replacement loop of `Trie.filter`, with the `uniquePositions` set. -/
def applyMatches : List WMatch → Str → List (Nat × Nat) → Str
  | [], txt, _ => txt
  | m :: ms, txt, seen =>
    if (m.start, m.stop) ∈ seen then applyMatches ms txt seen
    else
      applyMatches ms (replaceSpan txt m.start (List.replicate m.word.length starC) m.stop)
        ((m.start, m.stop) :: seen)

/-- `Trie.filter`: mask every matched span with `*` runs. -/
def Trie.filter (root : TrieNode) (text : Str) : Str :=
  let res := Trie.check root text
  if res.isEmpty then text
  else applyMatches (sortByLenDesc res) text []

/-- Paths accepted by the trie (ending at a terminal node). -/
def TrieNode.accepts : TrieNode → Str → Bool
  | t, [] => t.isEnd
  | t, c :: w =>
    match lookupChild t.children c with
    | some child => child.accepts w
    | none => false

/-! ## Substring occurrence predicates -/

/-- `w` occurs in `t` as a contiguous substring starting at offset `s`. -/
def sublistAt (w t : Str) (s : Nat) : Prop :=
  s + w.length ≤ t.length ∧ (t.drop s).take w.length = w

instance (w t : Str) (s : Nat) : Decidable (sublistAt w t s) := by
  unfold sublistAt; infer_instance

/-- `t` contains `w` as a contiguous substring. -/
def containsSub (t w : Str) : Prop := ∃ s, sublistAt w t s

instance (t w : Str) : Decidable (containsSub t w) :=
  haveI : Decidable (∃ s ∈ List.range (t.length + 1), sublistAt w t s) :=
    List.decidableBEx _ _
  decidable_of_iff (∃ s ∈ List.range (t.length + 1), sublistAt w t s) (by
    constructor
    · rintro ⟨s, _, h⟩; exact ⟨s, h⟩
    · rintro ⟨s, h⟩
      refine ⟨s, List.mem_range.mpr ?_, h⟩
      have := h.1
      omega)

/-! ## JavaScript values (danmaku `content` may be any JS value) -/

inductive JsVal where
  | vstr (s : Str)
  | vnum (n : Int)
  | vbool (b : Bool)
  | vnull
  | vundef
deriving DecidableEq, Repr

/-- JavaScript truthiness for the values we model (NaN is not modelled). -/
def JsVal.truthy : JsVal → Bool
  | .vstr s => !s.isEmpty
  | .vnum n => n != 0
  | .vbool b => b
  | .vnull => false
  | .vundef => false

/-- `typeof content === 'string'`. -/
def JsVal.isStr : JsVal → Bool
  | .vstr _ => true
  | _ => false

/-! ## External counter store (`redisUtils.incrWithExpire`, socketHandlers.js) -/

structure StoreEntry where
  value : Nat
  expiresAt : Nat
deriving DecidableEq, Repr

/-- The external counter store: availability flag plus keyed counters with
absolute expiry timestamps (milliseconds). -/
structure RedisStore where
  avail : Bool
  entries : List (String × StoreEntry)
deriving DecidableEq, Repr

def assocGet {β : Type} : List (String × β) → String → Option β
  | [], _ => none
  | (k1, v) :: rest, k => if k1 = k then some v else assocGet rest k

def assocSet {β : Type} : List (String × β) → String → β → List (String × β)
  | [], k, v => [(k, v)]
  | (k1, v1) :: rest, k, v =>
    if k1 = k then (k, v) :: rest else (k1, v1) :: assocSet rest k v

structure IncrResult where
  value : Nat
  hasRedis : Bool
deriving DecidableEq, Repr

/-- `redisUtils.incrWithExpire(key, expireSeconds)`: increment the counter at
`danmaku:key`; the TTL is set only when the counter is created (value 1).
An unavailable store yields `{value: 1, hasRedis: false}` with no change. -/
def incrWithExpire (st : RedisStore) (now : Nat) (key : String) (expireSeconds : Nat) :
    IncrResult × RedisStore :=
  if !st.avail then (⟨1, false⟩, st)
  else
    let fullKey := "danmaku:" ++ key
    match assocGet st.entries fullKey with
    | some e =>
      if now < e.expiresAt then
        (⟨e.value + 1, true⟩,
          { st with entries := assocSet st.entries fullKey ⟨e.value + 1, e.expiresAt⟩ })
      else
        (⟨1, true⟩,
          { st with entries := assocSet st.entries fullKey ⟨1, now + 1000 * expireSeconds⟩ })
    | none =>
      (⟨1, true⟩,
        { st with entries := assocSet st.entries fullKey ⟨1, now + 1000 * expireSeconds⟩ })

/-- Live counter value under lazy expiry (0 when absent or expired). -/
def countLive (st : RedisStore) (now : Nat) (key : String) : Nat :=
  match assocGet st.entries ("danmaku:" ++ key) with
  | some e => if now < e.expiresAt then e.value else 0
  | none => 0

/-! ## Filter configuration (`config` in filterRules.js) -/

structure RateConf where
  messagesPerSecond : Nat
  timeWindow : Nat
deriving DecidableEq, Repr

structure FilterConfig where
  userRateLimit : RateConf
  roomRateLimit : RateConf
  maxDuplicateCount : Nat
  duplicateTimeWindow : Nat
deriving DecidableEq, Repr

def defaultConfig : FilterConfig :=
  { userRateLimit := ⟨2, 1⟩
    roomRateLimit := ⟨1000, 1⟩
    maxDuplicateCount := 3
    duplicateTimeWindow := 10 }

/-- The default sensitive-word list loaded by `initializeFilterRules`. -/
def defaultSensitiveWords : List Str :=
  [String.data "敏感词1", String.data "敏感词2", String.data "违禁词",
   String.data "广告", String.data "spam"]

def defaultTrie : TrieNode := buildTrie defaultSensitiveWords

/-! ## filterDanmaku (filterRules.js lines 125-179) -/

structure FilterResult where
  allowed : Bool
  reason : String
  content : Str
deriving DecidableEq, Repr

def filterDanmaku (trie : Option TrieNode) (content : JsVal) : FilterResult :=
  if content.truthy && !content.isStr then
    ⟨false, "内容格式错误", []⟩
  else
    let trimmedContent : Str :=
      match content with
      | .vstr s => jsTrim s
      | _ => []
    if content.truthy && decide (trimmedContent.length > 50) then
      ⟨false, "内容长度不能超过50个字符", trimmedContent⟩
    else
      match trie with
      | some t =>
        let filterResult := Trie.filter t trimmedContent
        if filterResult = trimmedContent then ⟨true, "通过", filterResult⟩
        else ⟨false, "包含敏感词", filterResult⟩
      | none => ⟨true, "未启用敏感词过滤", trimmedContent⟩

/-! ## Rate limiting and duplicate suppression (filterRules.js 182-283) -/

def userRateKey (userId : String) : String := "rate_limit:user:" ++ userId
def roomRateKey (roomId : String) : String := "rate_limit:room:" ++ roomId
def dupKey (userId : String) (h : String) : String := "duplicate:" ++ userId ++ ":" ++ h

structure CheckResult where
  allowed : Bool
  reason : String
deriving DecidableEq, Repr

def userRateReason (cfg : FilterConfig) : String :=
  "发送太频繁，请稍后再试（" ++ toString cfg.userRateLimit.messagesPerSecond ++ "条/秒）"

/-- `checkRateLimit(userId, roomId)`: sender scope first, then room scope. -/
def checkRateLimit (cfg : FilterConfig) (now : Nat) (st : RedisStore)
    (userId roomId : String) : CheckResult × RedisStore :=
  let p1 := incrWithExpire st now (userRateKey userId) cfg.userRateLimit.timeWindow
  if p1.1.hasRedis && decide (p1.1.value > cfg.userRateLimit.messagesPerSecond) then
    (⟨false, userRateReason cfg⟩, p1.2)
  else
    let p2 := incrWithExpire p1.2 now (roomRateKey roomId) cfg.roomRateLimit.timeWindow
    if p2.1.hasRedis && decide (p2.1.value > cfg.roomRateLimit.messagesPerSecond) then
      (⟨false, "房间消息过多，请稍后再试"⟩, p2.2)
    else
      (⟨true, "通过频率限制"⟩, p2.2)

/-! ## hashString (filterRules.js 272-283) -/

/-- ToInt32: wrap an integer into the signed 32-bit range. -/
def jsToInt32 (n : Int) : Int :=
  let m := n % 4294967296
  if m < 2147483648 then m else m - 4294967296

/-- One step of the JS hash loop: `hash = toInt32((hash << 5) - hash + char)`. -/
def hashStep (h : Int) (c : Nat) : Int :=
  jsToInt32 (jsToInt32 (h * 32) - h + c)

def hashVal (s : Str) : Int :=
  s.foldl (fun h c => hashStep h c.toNat) 0

def base36digit (d : Nat) : Char :=
  if d < 10 then Char.ofNat (48 + d) else Char.ofNat (87 + d)

def base36Chars (fuel n : Nat) (acc : List Char) : List Char :=
  match fuel, n with
  | _, 0 => acc
  | 0, _ + 1 => acc
  | f + 1, m + 1 => base36Chars f ((m + 1) / 36) (base36digit ((m + 1) % 36) :: acc)

/-- `Number.prototype.toString(36)` for a non-negative integer; the fuel
argument `n` always suffices because the value shrinks at every division. -/
def natToBase36 (n : Nat) : String :=
  if n = 0 then "0" else ⟨base36Chars n n []⟩

/-- `hashString(str)` for string arguments. -/
def hashString (s : Str) : String :=
  natToBase36 (hashVal s).natAbs

/-- `hashString` applied to an arbitrary JS value, as the handlers may do:
numbers and booleans have no `.length`, so the loop is skipped and the hash
is `"0"`; `null`/`undefined` throw a `TypeError` (modelled as `none`). -/
def jsHashOf : JsVal → Option String
  | .vstr s => some (hashString s)
  | .vnum _ => some "0"
  | .vbool _ => some "0"
  | .vnull => none
  | .vundef => none

/-- `checkDuplicateMessage(userId, content)`; a thrown `TypeError` from
`hashString` is caught and the check fails open without touching the store. -/
def checkDuplicateMessage (cfg : FilterConfig) (now : Nat) (st : RedisStore)
    (userId : String) (content : JsVal) : CheckResult × RedisStore :=
  match jsHashOf content with
  | none => (⟨true, "重复检查异常，允许通过"⟩, st)
  | some h =>
    let p := incrWithExpire st now (dupKey userId h) cfg.duplicateTimeWindow
    if p.1.hasRedis && decide (p.1.value > cfg.maxDuplicateCount) then
      (⟨false, "重复消息过多"⟩, p.2)
    else
      (⟨true, "通过重复检查"⟩, p.2)

/-! ## processDanmaku and room handlers (socketHandlers.js) -/

structure Danmaku where
  userId : Option String
  content : JsVal
  dtype : Option String
  emojiInfo : Option String
deriving DecidableEq, Repr

inductive ProcResult where
  | sendFailed (reason : String)
  | broadcast (content : JsVal)
deriving DecidableEq, Repr

/-- `danmaku.userId || socket.id`. -/
def effectiveUserId (d : Danmaku) (socketId : String) : String :=
  match d.userId with
  | some u => if u = "" then socketId else u
  | none => socketId

/-- The content the duplicate check runs over: for emote danmaku with an
emote reference, the serialized reference `[emoji:value]`; otherwise the
raw content. -/
def pipelineCheckContent (d : Danmaku) : JsVal :=
  if d.dtype = some "emoji" && d.emojiInfo.isSome then
    .vstr ("[emoji:" ++ d.emojiInfo.getD "" ++ "]").data
  else d.content

/-- `processDanmaku(io, socket, data)` for one message: rate limit, duplicate
check, content filter, then broadcast of the finalized content. -/
def processDanmaku (cfg : FilterConfig) (trie : Option TrieNode) (now : Nat)
    (st : RedisStore) (socketId roomId : String) (d : Danmaku) :
    ProcResult × RedisStore :=
  let uid := effectiveUserId d socketId
  let p1 := checkRateLimit cfg now st uid roomId
  if !p1.1.allowed then (.sendFailed p1.1.reason, p1.2)
  else
    let p2 := checkDuplicateMessage cfg now p1.2 uid (pipelineCheckContent d)
    if !p2.1.allowed then (.sendFailed "请勿发送重复消息", p2.2)
    else
      if d.content.truthy then
        let fr := filterDanmaku trie d.content
        if !fr.allowed then (.sendFailed "内容包含敏感词", p2.2)
        else (.broadcast (.vstr fr.content), p2.2)
      else (.broadcast d.content, p2.2)

/-! ## Room registry (socketHandlers.js 5-31, 162-301) -/

structure QItem where
  socketId : String
  roomId : String
  dan : Danmaku
deriving DecidableEq, Repr

structure Room where
  onlineUsers : List String
  messageQueue : List QItem
  lastProcessTime : Nat
deriving DecidableEq, Repr

abbrev Registry := List (String × Room)

def regDelete (reg : Registry) (roomId : String) : Registry :=
  reg.filter (fun p => p.1 ≠ roomId)

/-- `initRoom(roomId)`: create the room when absent. -/
def initRoom (reg : Registry) (roomId : String) (now : Nat) : Registry :=
  if (assocGet reg roomId).isSome then reg
  else assocSet reg roomId ⟨[], [], now⟩

def setAdd (l : List String) (x : String) : List String :=
  if x ∈ l then l else l ++ [x]

/-- The `join-room` handler: `initRoom` then add the member. -/
def joinRoom (reg : Registry) (roomId socketId : String) (now : Nat) : Registry :=
  let reg1 := initRoom reg roomId now
  match assocGet reg1 roomId with
  | some room => assocSet reg1 roomId { room with onlineUsers := setAdd room.onlineUsers socketId }
  | none => reg1

/-- The `leave-room` handler: remove the member; release the room when both
the member set and the pending queue are empty. -/
def leaveRoom (reg : Registry) (roomId socketId : String) : Registry :=
  match assocGet reg roomId with
  | none => reg
  | some room =>
    let users := room.onlineUsers.erase socketId
    if users.isEmpty && room.messageQueue.isEmpty then regDelete reg roomId
    else assocSet reg roomId { room with onlineUsers := users }

/-- The `disconnect` handler: remove the member from every room it is in,
releasing rooms that end up with no members and no pending messages. -/
def disconnectCleanup (reg : Registry) (socketId : String) : Registry :=
  match reg with
  | [] => []
  | p :: rest =>
    if socketId ∈ p.2.onlineUsers then
      if (p.2.onlineUsers.erase socketId).isEmpty && p.2.messageQueue.isEmpty then
        disconnectCleanup rest socketId
      else (p.1, { p.2 with onlineUsers := p.2.onlineUsers.erase socketId }) ::
        disconnectCleanup rest socketId
    else p :: disconnectCleanup rest socketId

inductive SendOutcome where
  | noRoom
  | processedNow (res : ProcResult)
  | queued (drainDue : Bool)
deriving DecidableEq, Repr

/-- The `send-danmaku` handler: missing room fails; a backlogged queue
(more than 100 pending) bypasses the queue and the message is admitted
immediately; otherwise the message is appended to the back of the queue
(`drainDue` records whether the 100 ms drain trigger fired; the drain
itself is a separate step). -/
def sendDanmaku (cfg : FilterConfig) (trie : Option TrieNode) (now : Nat)
    (st : RedisStore) (reg : Registry) (socketId roomId : String) (d : Danmaku) :
    SendOutcome × Registry × RedisStore :=
  match assocGet reg roomId with
  | none => (.noRoom, reg, st)
  | some room =>
    if room.messageQueue.length > 100 then
      let p := processDanmaku cfg trie now st socketId roomId d
      (.processedNow p.1, reg, p.2)
    else
      let room2 := { room with messageQueue := room.messageQueue ++ [⟨socketId, roomId, d⟩] }
      (.queued (decide (now - room.lastProcessTime > 100)), assocSet reg roomId room2, st)

/-! ## Association-list and key-disjointness lemmas -/

theorem assocGet_assocSet_self {β : Type} (l : List (String × β)) (k : String) (v : β) :
    assocGet (assocSet l k v) k = some v := by
  induction l with
  | nil => simp [assocGet, assocSet]
  | cons p rest ih =>
    obtain ⟨k1, v1⟩ := p
    by_cases h : k1 = k <;> simp [assocGet, assocSet, h, ih]

theorem assocGet_assocSet_ne {β : Type} (l : List (String × β)) (k k' : String) (v : β)
    (h : k ≠ k') : assocGet (assocSet l k v) k' = assocGet l k' := by
  induction l with
  | nil => simp [assocGet, assocSet, h]
  | cons p rest ih =>
    obtain ⟨k1, v1⟩ := p
    by_cases h1 : k1 = k
    · subst h1; simp [assocGet, assocSet, h]
    · simp [assocGet, assocSet, h1, ih]

theorem str_append_ne_of_ne (p q u v : String) (hl : p.data.length = q.data.length)
    (hne : p ≠ q) : p ++ u ≠ q ++ v := by
  intro h
  have hd := congrArg String.data h
  rw [String.data_append, String.data_append] at hd
  exact hne (String.ext (List.append_inj hd hl).1)

theorem str_append_right_inj {u v : String} (s : String) (h : u ++ s = v ++ s) : u = v := by
  have hd := congrArg String.data h
  rw [String.data_append, String.data_append] at hd
  exact String.ext (List.append_cancel_right hd)

/-- The sender-scope and room-scope rate-limit store keys never collide. -/
theorem userKey_ne_roomKey (u r : String) :
    "danmaku:" ++ userRateKey u ≠ "danmaku:" ++ roomRateKey r := by
  show "danmaku:rate_limit:user:" ++ u ≠ "danmaku:rate_limit:room:" ++ r
  exact str_append_ne_of_ne _ _ _ _ rfl (by decide)

/-- Normal form of a prefixed duplicate-suppression key. -/
theorem dupKey_norm (du dh : String) :
    "danmaku:" ++ dupKey du dh = "danmaku:duplicate:" ++ (du ++ (":" ++ dh)) := by
  show "danmaku:" ++ ("duplicate:" ++ du ++ ":" ++ dh) = _
  rw [String.append_assoc, String.append_assoc]
  rfl

/-- The duplicate-suppression store key never collides with a sender-scope key. -/
theorem dupKey_ne_userKey (du dh u : String) :
    "danmaku:" ++ dupKey du dh ≠ "danmaku:" ++ userRateKey u := by
  rw [dupKey_norm]
  show "danmaku:du" ++ ("plicate:" ++ (du ++ (":" ++ dh))) ≠ "danmaku:ra" ++ ("te_limit:user:" ++ u)
  exact str_append_ne_of_ne _ _ _ _ rfl (by decide)

/-- The duplicate-suppression store key never collides with a room-scope key. -/
theorem dupKey_ne_roomKey (du dh r : String) :
    "danmaku:" ++ dupKey du dh ≠ "danmaku:" ++ roomRateKey r := by
  rw [dupKey_norm]
  show "danmaku:du" ++ ("plicate:" ++ (du ++ (":" ++ dh))) ≠ "danmaku:ra" ++ ("te_limit:room:" ++ r)
  exact str_append_ne_of_ne _ _ _ _ rfl (by decide)

/-- Duplicate-suppression keys of distinct senders (same hash) are distinct. -/
theorem dupKey_inj_user (u1 u2 h : String) (hne : u1 ≠ u2) :
    "danmaku:" ++ dupKey u1 h ≠ "danmaku:" ++ dupKey u2 h := by
  intro heq
  apply hne
  rw [dupKey_norm, dupKey_norm] at heq
  have hd := congrArg String.data heq
  rw [String.data_append, String.data_append] at hd
  have := String.ext (List.append_cancel_left hd)
  exact str_append_right_inj (":" ++ h) this

/-! ## C6: fail-open on store unavailability -/

/-- C6: for every input, when the external counter store is unavailable,
both the rate-limit check and the duplicate check return Allowed and leave
the store untouched, rather than denying or propagating an error. -/
theorem c6_fail_open (cfg : FilterConfig) (now : Nat) (st : RedisStore)
    (u r : String) (content : JsVal) (h : st.avail = false) :
    (checkRateLimit cfg now st u r).1.allowed = true ∧
    (checkRateLimit cfg now st u r).2 = st ∧
    (checkDuplicateMessage cfg now st u content).1.allowed = true ∧
    (checkDuplicateMessage cfg now st u content).2 = st := by
  have hi : ∀ key ttl, incrWithExpire st now key ttl = (⟨1, false⟩, st) := by
    intro key ttl; simp [incrWithExpire, h]
  refine ⟨?_, ?_, ?_, ?_⟩ <;>
    cases content <;> simp [checkRateLimit, checkDuplicateMessage, jsHashOf, hi]

/-- Witness for C6 at a concrete unavailable store and message. -/
theorem c6_fail_open_witness :
    (checkRateLimit defaultConfig 5 ⟨false, []⟩ "u1" "r1").1.allowed = true ∧
    (checkRateLimit defaultConfig 5 ⟨false, []⟩ "u1" "r1").2 = ⟨false, []⟩ ∧
    (checkDuplicateMessage defaultConfig 5 ⟨false, []⟩ "u1" (.vstr ['h', 'i'])).1.allowed = true ∧
    (checkDuplicateMessage defaultConfig 5 ⟨false, []⟩ "u1" (.vstr ['h', 'i'])).2 = ⟨false, []⟩ :=
  c6_fail_open defaultConfig 5 ⟨false, []⟩ "u1" "r1" (.vstr ['h', 'i']) rfl

/-! ## C7: backpressure bypass in the send handler -/

/-- C7: in an existing room, an arriving message is appended to the back of
the pending queue exactly when the queue holds at most 100 messages; when it
holds more than 100, the queue is left unchanged and the message is admitted
immediately (run through the admission pipeline). -/
theorem c7_backpressure (cfg : FilterConfig) (trie : Option TrieNode) (now : Nat)
    (st : RedisStore) (reg : Registry) (sid roomId : String) (d : Danmaku) (room : Room)
    (hroom : assocGet reg roomId = some room) :
    (room.messageQueue.length ≤ 100 →
      (∃ b, (sendDanmaku cfg trie now st reg sid roomId d).1 = .queued b) ∧
      assocGet (sendDanmaku cfg trie now st reg sid roomId d).2.1 roomId =
        some { room with messageQueue := room.messageQueue ++ [⟨sid, roomId, d⟩] } ∧
      (sendDanmaku cfg trie now st reg sid roomId d).2.2 = st) ∧
    (room.messageQueue.length > 100 →
      (sendDanmaku cfg trie now st reg sid roomId d).1 =
        .processedNow (processDanmaku cfg trie now st sid roomId d).1 ∧
      (sendDanmaku cfg trie now st reg sid roomId d).2.1 = reg) := by
  constructor
  · intro hle
    have hnb : ¬ room.messageQueue.length > 100 := by omega
    simp [sendDanmaku, hroom, hnb, assocGet_assocSet_self]
  · intro hgt
    simp [sendDanmaku, hroom, hgt]

/-- Witness for C7: a room with an empty queue enqueues the arriving message. -/
theorem c7_backpressure_witness :
    (∃ b, (sendDanmaku defaultConfig none 0 ⟨false, []⟩ [("r1", ⟨["a"], [], 0⟩)] "s" "r1"
        ⟨none, .vundef, none, none⟩).1 = SendOutcome.queued b) ∧
    assocGet (sendDanmaku defaultConfig none 0 ⟨false, []⟩ [("r1", ⟨["a"], [], 0⟩)] "s" "r1"
        ⟨none, .vundef, none, none⟩).2.1 "r1" =
      some ⟨["a"], [⟨"s", "r1", ⟨none, .vundef, none, none⟩⟩], 0⟩ := by
  have h := c7_backpressure defaultConfig none 0 ⟨false, []⟩ [("r1", ⟨["a"], [], 0⟩)]
    "s" "r1" ⟨none, .vundef, none, none⟩ ⟨["a"], [], 0⟩ rfl
  exact ⟨(h.1 (by decide)).1, (h.1 (by decide)).2.1⟩

/-! ## C9: room lifecycle -/

theorem assocGet_regDelete_self (reg : Registry) (k : String) :
    assocGet (regDelete reg k) k = none := by
  induction reg with
  | nil => rfl
  | cons p rest ih =>
    obtain ⟨k1, r1⟩ := p
    by_cases h : k1 = k
    · simpa [regDelete, h] using ih
    · simpa [regDelete, assocGet, h] using ih

theorem assocGet_disconnect_of_not_mem (l : Registry) (sid k : String)
    (h : k ∉ l.map Prod.fst) : assocGet (disconnectCleanup l sid) k = none := by
  induction l with
  | nil => rfl
  | cons p rest ih =>
    obtain ⟨k1, r1⟩ := p
    simp only [List.map_cons, List.mem_cons] at h
    push_neg at h
    rw [disconnectCleanup]
    by_cases hm : sid ∈ (k1, r1).2.onlineUsers
    · rw [if_pos hm]
      by_cases he : (((k1, r1).2.onlineUsers.erase sid).isEmpty &&
          (k1, r1).2.messageQueue.isEmpty) = true
      · rw [if_pos he]; exact ih h.2
      · rw [if_neg he, assocGet, if_neg (Ne.symm h.1)]; exact ih h.2
    · rw [if_neg hm, assocGet, if_neg (Ne.symm h.1)]; exact ih h.2

/-- C9: when the last member leaves a room with an empty pending queue (via
`leave-room` or `disconnect`), the room is removed from the registry; a join
on a registry without the room recreates it from scratch with an empty member
set and an empty queue before adding the joining member. -/
theorem c9_room_lifecycle (reg : Registry) (roomId u sid : String) (now : Nat) (room : Room)
    (hnd : (reg.map Prod.fst).Nodup)
    (hlook : assocGet reg roomId = some room)
    (hu : room.onlineUsers = [u]) (hq : room.messageQueue = []) :
    assocGet (leaveRoom reg roomId u) roomId = none ∧
    assocGet (disconnectCleanup reg u) roomId = none ∧
    (∀ reg2 : Registry, assocGet reg2 roomId = none →
      assocGet (joinRoom reg2 roomId sid now) roomId = some ⟨[sid], [], now⟩) := by
  refine ⟨?_, ?_, ?_⟩
  · simp only [leaveRoom, hlook, hu, hq]
    simp [List.erase_cons_head, assocGet_regDelete_self]
  · induction reg with
    | nil => simp [assocGet] at hlook
    | cons p rest ih =>
      obtain ⟨k1, r1⟩ := p
      simp only [List.map_cons, List.nodup_cons] at hnd
      rw [disconnectCleanup]
      by_cases h : k1 = roomId
      · subst h
        have hr : r1 = room := by simpa [assocGet] using hlook
        have hm : u ∈ (k1, r1).2.onlineUsers := by rw [hr, hu]; simp
        have he : (((k1, r1).2.onlineUsers.erase u).isEmpty &&
            (k1, r1).2.messageQueue.isEmpty) = true := by
          rw [hr, hu, hq]; simp
        rw [if_pos hm, if_pos he]
        exact assocGet_disconnect_of_not_mem rest u k1 hnd.1
      · have hlook2 : assocGet rest roomId = some room := by
          simpa [assocGet, h] using hlook
        by_cases hm : u ∈ (k1, r1).2.onlineUsers
        · rw [if_pos hm]
          by_cases he : (((k1, r1).2.onlineUsers.erase u).isEmpty &&
              (k1, r1).2.messageQueue.isEmpty) = true
          · rw [if_pos he]; exact ih hnd.2 hlook2
          · rw [if_neg he, assocGet, if_neg h]; exact ih hnd.2 hlook2
        · rw [if_neg hm, assocGet, if_neg h]; exact ih hnd.2 hlook2
  · intro reg2 hnone
    simp only [joinRoom, initRoom, hnone, Option.isSome_none, Bool.false_eq_true, if_false,
      assocGet_assocSet_self]
    simp [setAdd, assocGet_assocSet_self]

/-- Witness for C9 at a concrete one-room registry. -/
theorem c9_room_lifecycle_witness :
    assocGet (leaveRoom [("r1", ⟨["a"], [], 7⟩)] "r1" "a") "r1" = none ∧
    assocGet (disconnectCleanup [("r1", ⟨["a"], [], 7⟩)] "a") "r1" = none ∧
    assocGet (joinRoom [] "r1" "b" 9) "r1" = some ⟨["b"], [], 9⟩ := by
  have h := c9_room_lifecycle [("r1", ⟨["a"], [], 7⟩)] "r1" "a" "b" 9 ⟨["a"], [], 7⟩
    (by decide) rfl rfl rfl
  exact ⟨h.1, h.2.1, h.2.2 [] rfl⟩

/-! ## C4: sender-scope rate limiting over a fixed window -/

/-- C4: with the default sender limit of 2 messages per second (1-second
window), three `checkRateLimit` calls for the same sender within one window
yield Allowed, Allowed, Denied in that order; after the window's TTL elapses
the next call is Allowed again with a fresh post-increment count of 1. -/
theorem c4_rate_limiter (u r : String) (t t2 t3 t4 : Nat)
    (h2a : t ≤ t2) (h2b : t2 < t + 1000) (h3a : t2 ≤ t3) (h3b : t3 < t + 1000)
    (h4 : t + 1000 ≤ t4) :
    (let p1 := checkRateLimit defaultConfig t ⟨true, []⟩ u r
     let p2 := checkRateLimit defaultConfig t2 p1.2 u r
     let p3 := checkRateLimit defaultConfig t3 p2.2 u r
     let p4 := checkRateLimit defaultConfig t4 p3.2 u r
     p1.1.allowed = true ∧ p2.1.allowed = true ∧ p3.1.allowed = false ∧
       p4.1.allowed = true ∧ countLive p4.2 t4 (userRateKey u) = 1) := by
  have kne := userKey_ne_roomKey u r
  have hn4 : ¬ t4 < t + 1000 := by omega
  have hlive : t4 < t4 + 1000 := by omega
  have e1 : checkRateLimit defaultConfig t ⟨true, []⟩ u r =
      (⟨true, "通过频率限制"⟩, ⟨true,
        [("danmaku:" ++ userRateKey u, ⟨1, t + 1000⟩),
         ("danmaku:" ++ roomRateKey r, ⟨1, t + 1000⟩)]⟩) := by
    simp [checkRateLimit, incrWithExpire, assocGet, assocSet, defaultConfig, kne]
  have e2 : checkRateLimit defaultConfig t2 ⟨true,
      [("danmaku:" ++ userRateKey u, ⟨1, t + 1000⟩),
       ("danmaku:" ++ roomRateKey r, ⟨1, t + 1000⟩)]⟩ u r =
      (⟨true, "通过频率限制"⟩, ⟨true,
        [("danmaku:" ++ userRateKey u, ⟨2, t + 1000⟩),
         ("danmaku:" ++ roomRateKey r, ⟨2, t + 1000⟩)]⟩) := by
    simp [checkRateLimit, incrWithExpire, assocGet, assocSet, defaultConfig, kne, h2b]
  have e3 : checkRateLimit defaultConfig t3 ⟨true,
      [("danmaku:" ++ userRateKey u, ⟨2, t + 1000⟩),
       ("danmaku:" ++ roomRateKey r, ⟨2, t + 1000⟩)]⟩ u r =
      (⟨false, userRateReason defaultConfig⟩, ⟨true,
        [("danmaku:" ++ userRateKey u, ⟨3, t + 1000⟩),
         ("danmaku:" ++ roomRateKey r, ⟨2, t + 1000⟩)]⟩) := by
    simp [checkRateLimit, incrWithExpire, assocGet, assocSet, defaultConfig, kne, h3b]
  have e4 : checkRateLimit defaultConfig t4 ⟨true,
      [("danmaku:" ++ userRateKey u, ⟨3, t + 1000⟩),
       ("danmaku:" ++ roomRateKey r, ⟨2, t + 1000⟩)]⟩ u r =
      (⟨true, "通过频率限制"⟩, ⟨true,
        [("danmaku:" ++ userRateKey u, ⟨1, t4 + 1000⟩),
         ("danmaku:" ++ roomRateKey r, ⟨1, t4 + 1000⟩)]⟩) := by
    simp [checkRateLimit, incrWithExpire, assocGet, assocSet, defaultConfig, kne, hn4]
  simp only [e1, e2, e3, e4]
  refine ⟨trivial, trivial, trivial, trivial, ?_⟩
  simp [countLive, assocGet, hlive]

/-- Witness for C4 at concrete times 0, 1, 2, 1000. -/
theorem c4_rate_limiter_witness :
    (let p1 := checkRateLimit defaultConfig 0 ⟨true, []⟩ "u1" "r1"
     let p2 := checkRateLimit defaultConfig 1 p1.2 "u1" "r1"
     let p3 := checkRateLimit defaultConfig 2 p2.2 "u1" "r1"
     let p4 := checkRateLimit defaultConfig 1000 p3.2 "u1" "r1"
     p1.1.allowed = true ∧ p2.1.allowed = true ∧ p3.1.allowed = false ∧
       p4.1.allowed = true ∧ countLive p4.2 1000 (userRateKey "u1") = 1) :=
  c4_rate_limiter "u1" "r1" 0 1 2 1000
    (by decide) (by decide) (by decide) (by decide) (by decide)

/-! ## C5: duplicate suppression with per-sender keys -/

/-- C5: with the default `maxRepeats = 3` and 10-second window, four
duplicate checks with identical content from the same sender within the
window yield Allowed for the first three and Denied for the fourth; a call
with the same content from a different sender uses an independent counter
key and is Allowed. -/
theorem c5_duplicate_suppressor (u1 u2 : String) (c : Str) (t1 t2 t3 t4 t5 : Nat)
    (hu : u1 ≠ u2)
    (h2a : t1 ≤ t2) (h2b : t2 < t1 + 10000) (h3a : t2 ≤ t3) (h3b : t3 < t1 + 10000)
    (h4a : t3 ≤ t4) (h4b : t4 < t1 + 10000) :
    (let p1 := checkDuplicateMessage defaultConfig t1 ⟨true, []⟩ u1 (.vstr c)
     let p2 := checkDuplicateMessage defaultConfig t2 p1.2 u1 (.vstr c)
     let p3 := checkDuplicateMessage defaultConfig t3 p2.2 u1 (.vstr c)
     let p4 := checkDuplicateMessage defaultConfig t4 p3.2 u1 (.vstr c)
     let p5 := checkDuplicateMessage defaultConfig t5 p4.2 u2 (.vstr c)
     p1.1.allowed = true ∧ p2.1.allowed = true ∧ p3.1.allowed = true ∧
       p4.1.allowed = false ∧ p5.1.allowed = true ∧
       dupKey u1 (hashString c) ≠ dupKey u2 (hashString c)) := by
  have kne : "danmaku:" ++ dupKey u1 (hashString c) ≠ "danmaku:" ++ dupKey u2 (hashString c) :=
    dupKey_inj_user u1 u2 (hashString c) hu
  have e1 : checkDuplicateMessage defaultConfig t1 ⟨true, []⟩ u1 (.vstr c) =
      (⟨true, "通过重复检查"⟩, ⟨true,
        [("danmaku:" ++ dupKey u1 (hashString c), ⟨1, t1 + 10000⟩)]⟩) := by
    simp [checkDuplicateMessage, jsHashOf, incrWithExpire, assocGet, assocSet, defaultConfig]
  have e2 : checkDuplicateMessage defaultConfig t2 ⟨true,
      [("danmaku:" ++ dupKey u1 (hashString c), ⟨1, t1 + 10000⟩)]⟩ u1 (.vstr c) =
      (⟨true, "通过重复检查"⟩, ⟨true,
        [("danmaku:" ++ dupKey u1 (hashString c), ⟨2, t1 + 10000⟩)]⟩) := by
    simp [checkDuplicateMessage, jsHashOf, incrWithExpire, assocGet, assocSet, defaultConfig, h2b]
  have e3 : checkDuplicateMessage defaultConfig t3 ⟨true,
      [("danmaku:" ++ dupKey u1 (hashString c), ⟨2, t1 + 10000⟩)]⟩ u1 (.vstr c) =
      (⟨true, "通过重复检查"⟩, ⟨true,
        [("danmaku:" ++ dupKey u1 (hashString c), ⟨3, t1 + 10000⟩)]⟩) := by
    simp [checkDuplicateMessage, jsHashOf, incrWithExpire, assocGet, assocSet, defaultConfig, h3b]
  have e4 : checkDuplicateMessage defaultConfig t4 ⟨true,
      [("danmaku:" ++ dupKey u1 (hashString c), ⟨3, t1 + 10000⟩)]⟩ u1 (.vstr c) =
      (⟨false, "重复消息过多"⟩, ⟨true,
        [("danmaku:" ++ dupKey u1 (hashString c), ⟨4, t1 + 10000⟩)]⟩) := by
    simp [checkDuplicateMessage, jsHashOf, incrWithExpire, assocGet, assocSet, defaultConfig, h4b]
  have e5 : (checkDuplicateMessage defaultConfig t5 ⟨true,
      [("danmaku:" ++ dupKey u1 (hashString c), ⟨4, t1 + 10000⟩)]⟩ u2 (.vstr c)).1.allowed =
      true := by
    simp [checkDuplicateMessage, jsHashOf, incrWithExpire, assocGet, assocSet, defaultConfig,
      kne]
  simp only [e1, e2, e3, e4]
  refine ⟨trivial, trivial, trivial, trivial, e5, ?_⟩
  intro heq
  exact kne (by rw [heq])

/-- Witness for C5 at concrete senders, content and times. -/
theorem c5_duplicate_suppressor_witness :
    (let p1 := checkDuplicateMessage defaultConfig 0 ⟨true, []⟩ "u1" (.vstr ['h', 'i'])
     let p2 := checkDuplicateMessage defaultConfig 1 p1.2 "u1" (.vstr ['h', 'i'])
     let p3 := checkDuplicateMessage defaultConfig 2 p2.2 "u1" (.vstr ['h', 'i'])
     let p4 := checkDuplicateMessage defaultConfig 3 p3.2 "u1" (.vstr ['h', 'i'])
     let p5 := checkDuplicateMessage defaultConfig 4 p4.2 "u2" (.vstr ['h', 'i'])
     p1.1.allowed = true ∧ p2.1.allowed = true ∧ p3.1.allowed = true ∧
       p4.1.allowed = false ∧ p5.1.allowed = true ∧
       dupKey "u1" (hashString ['h', 'i']) ≠ dupKey "u2" (hashString ['h', 'i'])) :=
  c5_duplicate_suppressor "u1" "u2" ['h', 'i'] 0 1 2 3 4
    (by decide) (by decide) (by decide) (by decide) (by decide) (by decide) (by decide)

/-! ## Shape and completeness of the scanner -/

theorem walk_shape (rest : Str) : ∀ (nd : TrieNode) (i j : Nat) (cur : Str),
    ∀ m ∈ nd.walk rest i j cur, ∃ k, k < rest.length ∧ m.start = i ∧ m.stop = j + k + 1 ∧
      m.word = cur ++ rest.take (k + 1) := by
  induction rest with
  | nil => intro nd i j cur m hm; simp [TrieNode.walk] at hm
  | cons c rs ih =>
    intro nd i j cur m hm
    rw [TrieNode.walk] at hm
    cases hch : lookupChild nd.children c with
    | none => rw [hch] at hm; simp at hm
    | some child =>
      rw [hch] at hm
      simp only at hm
      have htail := ih child i (j + 1) (cur ++ [c]) m
      have hstep : m ∈ child.walk rs i (j + 1) (cur ++ [c]) →
          ∃ k, k < (c :: rs).length ∧ m.start = i ∧ m.stop = j + k + 1 ∧
            m.word = cur ++ (c :: rs).take (k + 1) := by
        intro htl
        obtain ⟨k, hk, hs, hst, hw⟩ := htail htl
        refine ⟨k + 1, by simp; omega, hs, by omega, ?_⟩
        rw [hw, List.take_succ_cons]
        simp [List.append_assoc]
      by_cases he : child.isEnd = true
      · rw [if_pos he] at hm
        rcases List.mem_cons.mp hm with hhead | htl
        · subst hhead
          refine ⟨0, by simp, rfl, by simp, by simp⟩
        · exact hstep htl
      · rw [if_neg he] at hm
        exact hstep hm

/-- Every match reported by `Trie.check` spans exactly its word's length,
lies within the text, and is the corresponding slice of the text. -/
theorem check_shape (root : TrieNode) (text : Str) :
    ∀ m ∈ Trie.check root text,
      m.stop = m.start + m.word.length ∧ m.stop ≤ text.length := by
  intro m hm
  rw [Trie.check] at hm
  obtain ⟨l, hl, hml⟩ := List.mem_flatten.mp hm
  obtain ⟨i, hi, rfl⟩ := List.mem_map.mp hl
  have hiL : i < text.length := List.mem_range.mp hi
  obtain ⟨k, hk, hs, hst, hw⟩ := walk_shape (text.drop i) root i i [] m hml
  have hlen : (text.drop i).length = text.length - i := List.length_drop i text
  have hwlen : m.word.length = k + 1 := by
    rw [hw]
    simp only [List.nil_append, List.length_take]
    omega
  constructor
  · omega
  · omega

theorem walk_complete (w : Str) : ∀ (nd : TrieNode) (rest : Str) (i j : Nat) (cur : Str),
    nd.accepts w = true → w ≠ [] → rest.take w.length = w →
    (⟨cur ++ w, i, j + w.length⟩ : WMatch) ∈ nd.walk rest i j cur := by
  induction w with
  | nil => intro _ _ _ _ _ _ hne _; exact absurd rfl hne
  | cons c w2 ih =>
    intro nd rest i j cur hacc _ htake
    cases rest with
    | nil => simp at htake
    | cons d rs =>
      rw [List.length_cons, List.take_succ_cons] at htake
      have hdc : d = c := List.head_eq_of_cons_eq htake
      have htk : rs.take w2.length = w2 := List.tail_eq_of_cons_eq htake
      subst hdc
      rw [TrieNode.accepts] at hacc
      cases hch : lookupChild nd.children d with
      | none => rw [hch] at hacc; simp at hacc
      | some child =>
        rw [hch] at hacc
        simp only at hacc
        rw [TrieNode.walk, hch]
        simp only
        by_cases hw2 : w2 = []
        · subst hw2
          rw [TrieNode.accepts] at hacc
          rw [if_pos hacc]
          have hq : (⟨cur ++ [d], i, j + [d].length⟩ : WMatch) =
              ⟨cur ++ [d], i, j + 1⟩ := by simp
          rw [hq]
          exact List.mem_cons_self _ _
        · have hmem := ih child rs i (j + 1) (cur ++ [d]) hacc hw2 htk
          have heq : (⟨(cur ++ [d]) ++ w2, i, (j + 1) + w2.length⟩ : WMatch) =
              ⟨cur ++ (d :: w2), i, j + (d :: w2).length⟩ := by
            simp [List.append_assoc]
            omega
          rw [heq] at hmem
          by_cases he : child.isEnd = true
          · rw [if_pos he]; exact List.mem_cons_of_mem _ hmem
          · rw [if_neg he]; exact hmem

/-- Completeness: every occurrence in the text of a word accepted by the
trie is reported by `Trie.check` with its exact span. -/
theorem check_complete (root : TrieNode) (text w : Str) (s : Nat)
    (hacc : root.accepts w = true) (hne : w ≠ []) (hocc : sublistAt w text s) :
    (⟨w, s, s + w.length⟩ : WMatch) ∈ Trie.check root text := by
  obtain ⟨hle, htake⟩ := hocc
  have hwpos : 0 < w.length := List.length_pos.mpr hne
  have hsL : s < text.length := by omega
  have hmem := walk_complete w root (text.drop s) s s [] hacc hne htake
  rw [Trie.check]
  apply List.mem_flatten.mpr
  refine ⟨root.walk (text.drop s) s s [], List.mem_map.mpr ⟨s, List.mem_range.mpr hsL, rfl⟩, ?_⟩
  simpa using hmem

/-! ## The built trie accepts every listed word -/

theorem lookupChild_updateChild_self (cs : List (Char × TrieNode)) (c : Char)
    (t u : TrieNode) (h : lookupChild cs c = some u) :
    lookupChild (updateChild cs c t) c = some t := by
  induction cs with
  | nil => simp [lookupChild] at h
  | cons p rest ih =>
    obtain ⟨d, v⟩ := p
    by_cases hd : d = c
    · simp [lookupChild, updateChild, hd]
    · rw [lookupChild, if_neg hd] at h
      simp [lookupChild, updateChild, hd, ih h]

theorem lookupChild_updateChild_ne (cs : List (Char × TrieNode)) (c d : Char)
    (t : TrieNode) (h : d ≠ c) :
    lookupChild (updateChild cs c t) d = lookupChild cs d := by
  induction cs with
  | nil => simp [lookupChild, updateChild]
  | cons p rest ih =>
    obtain ⟨e, v⟩ := p
    by_cases he : e = c
    · subst he
      simp [lookupChild, updateChild, Ne.symm h]
    · by_cases hed : e = d
      · rw [updateChild, if_neg he, lookupChild, if_pos hed, lookupChild, if_pos hed]
      · rw [updateChild, if_neg he, lookupChild, if_neg hed, lookupChild, if_neg hed, ih]

theorem lookupChild_append_none (cs : List (Char × TrieNode)) (c : Char)
    (t : TrieNode) (h : lookupChild cs c = none) :
    lookupChild (cs ++ [(c, t)]) c = some t := by
  induction cs with
  | nil => simp [lookupChild]
  | cons p rest ih =>
    obtain ⟨d, v⟩ := p
    by_cases hd : d = c
    · rw [lookupChild, if_pos hd] at h; simp at h
    · rw [lookupChild, if_neg hd] at h
      simp [lookupChild, hd, ih h]

theorem lookupChild_append_some (cs es : List (Char × TrieNode)) (c : Char)
    (u : TrieNode) (h : lookupChild cs c = some u) :
    lookupChild (cs ++ es) c = some u := by
  induction cs with
  | nil => simp [lookupChild] at h
  | cons p rest ih =>
    obtain ⟨d, v⟩ := p
    by_cases hd : d = c
    · rw [lookupChild, if_pos hd] at h
      simp [lookupChild, hd, h]
    · rw [lookupChild, if_neg hd] at h
      simp [lookupChild, hd, ih h]

theorem addWord_accepts_self (w : Str) : ∀ t : TrieNode, (t.addWord w).accepts w = true := by
  induction w with
  | nil =>
    intro t
    obtain ⟨cs, e⟩ := t
    simp [TrieNode.addWord, TrieNode.accepts, TrieNode.isEnd]
  | cons c w2 ih =>
    intro t
    obtain ⟨cs, e⟩ := t
    rw [TrieNode.addWord]
    cases hch : lookupChild cs c with
    | some child =>
      rw [TrieNode.accepts]
      rw [show (TrieNode.node (updateChild cs c (child.addWord w2)) e).children =
        updateChild cs c (child.addWord w2) from rfl]
      rw [lookupChild_updateChild_self cs c _ child hch]
      exact ih child
    | none =>
      rw [TrieNode.accepts]
      rw [show (TrieNode.node (cs ++ [(c, TrieNode.addWord (.node [] false) w2)]) e).children =
        cs ++ [(c, TrieNode.addWord (.node [] false) w2)] from rfl]
      rw [lookupChild_append_none cs c _ hch]
      exact ih _

theorem addWord_accepts_mono (v : Str) : ∀ (w : Str) (t : TrieNode),
    t.accepts v = true → (t.addWord w).accepts v = true := by
  induction v with
  | nil =>
    intro w t hv
    obtain ⟨cs, e⟩ := t
    rw [TrieNode.accepts] at hv
    cases w with
    | nil => simp [TrieNode.addWord, TrieNode.accepts, TrieNode.isEnd]
    | cons c w2 =>
      rw [TrieNode.addWord]
      cases hch : lookupChild cs c <;>
        simp_all [TrieNode.accepts, TrieNode.isEnd]
  | cons b v2 ih =>
    intro w t hv
    obtain ⟨cs, e⟩ := t
    rw [TrieNode.accepts] at hv
    cases hb : lookupChild (TrieNode.node cs e).children b with
    | none => rw [hb] at hv; simp at hv
    | some bchild =>
      rw [hb] at hv
      simp only at hv
      have hbcs : lookupChild cs b = some bchild := hb
      cases w with
      | nil =>
        rw [TrieNode.addWord, TrieNode.accepts]
        rw [show (TrieNode.node cs true).children = cs from rfl]
        rw [hbcs]
        exact hv
      | cons c w2 =>
        rw [TrieNode.addWord]
        cases hch : lookupChild cs c with
        | some cchild =>
          rw [TrieNode.accepts]
          rw [show (TrieNode.node (updateChild cs c (cchild.addWord w2)) e).children =
            updateChild cs c (cchild.addWord w2) from rfl]
          by_cases hbc : b = c
          · subst hbc
            have : bchild = cchild := by rw [hbcs] at hch; exact Option.some_inj.mp hch
            subst this
            rw [lookupChild_updateChild_self cs b _ bchild hbcs]
            exact ih w2 bchild hv
          · rw [lookupChild_updateChild_ne cs c b _ hbc, hbcs]
            exact hv
        | none =>
          rw [TrieNode.accepts]
          rw [show (TrieNode.node (cs ++ [(c, TrieNode.addWord (.node [] false) w2)]) e).children =
            cs ++ [(c, TrieNode.addWord (.node [] false) w2)] from rfl]
          rw [lookupChild_append_some cs _ b bchild hbcs]
          exact hv

theorem buildTrie_accepts (ws : List Str) (w : Str) (hw : w ∈ ws) :
    (buildTrie ws).accepts w = true := by
  rw [buildTrie]
  suffices h : ∀ (l : List Str) (t : TrieNode), (t.accepts w = true ∨ w ∈ l) →
      (l.foldl TrieNode.addWord t).accepts w = true by
    exact h ws _ (Or.inr hw)
  intro l
  induction l with
  | nil =>
    intro t h
    rcases h with h | h
    · exact h
    · simp at h
  | cons x xs ih =>
    intro t h
    rw [List.foldl_cons]
    rcases h with h | h
    · exact ih _ (Or.inl (addWord_accepts_mono w x t h))
    · rcases List.mem_cons.mp h with rfl | hxs
      · exact ih _ (Or.inl (addWord_accepts_self w t))
      · exact ih _ (Or.inr hxs)

/-! ## Output characterization of the masking filter -/

/-- `k` lies inside the span of some reported match. -/
def coveredB (ms : List WMatch) (k : Nat) : Bool :=
  ms.any (fun m => decide (m.start ≤ k) && decide (k < m.stop))

/-- `k` lies inside one of the already-replaced spans. -/
def spanCovB (S : List (Nat × Nat)) (k : Nat) : Bool :=
  S.any (fun p => decide (p.1 ≤ k) && decide (k < p.2))

theorem replaceSpan_length (txt : Str) (s e : Nat) (repl : Str)
    (hse : s ≤ e) (heL : e ≤ txt.length) (hr : repl.length = e - s) :
    (replaceSpan txt s repl e).length = txt.length := by
  rw [replaceSpan]
  simp only [List.length_append, List.length_take, List.length_drop]
  omega

theorem replaceSpan_getElem (txt : Str) (s e : Nat) (repl : Str)
    (hse : s ≤ e) (heL : e ≤ txt.length) (hr : repl.length = e - s) (k : Nat) :
    (replaceSpan txt s repl e)[k]? =
      if s ≤ k ∧ k < e then repl[k - s]? else txt[k]? := by
  have hts : (txt.take s).length = s := by
    rw [List.length_take]; omega
  rw [replaceSpan, List.append_assoc, List.getElem?_append, hts]
  by_cases hk1 : k < s
  · rw [if_pos hk1, List.getElem?_take, if_pos hk1, if_neg (by omega)]
  · rw [if_neg hk1, List.getElem?_append, hr]
    by_cases hk2 : k < e
    · rw [if_pos (by omega), if_pos (by omega)]
    · rw [if_neg (by omega), if_neg (by omega), List.getElem?_drop]
      congr 1
      omega

theorem applyMatches_getElem (text : Str) : ∀ (ms : List WMatch) (txt : Str)
    (seen : List (Nat × Nat)),
    (∀ m ∈ ms, m.stop = m.start + m.word.length ∧ m.stop ≤ text.length) →
    txt.length = text.length →
    (∀ k, k < text.length → txt[k]? = if spanCovB seen k then some starC else text[k]?) →
    (applyMatches ms txt seen).length = text.length ∧
      ∀ k, k < text.length → (applyMatches ms txt seen)[k]? =
        if (spanCovB seen k || coveredB ms k) then some starC else text[k]? := by
  intro ms
  induction ms with
  | nil =>
    intro txt seen _ hlen hinv
    refine ⟨hlen, fun k hk => ?_⟩
    rw [applyMatches]
    simpa [coveredB] using hinv k hk
  | cons m ms2 ih =>
    intro txt seen hshape hlen hinv
    have hm := hshape m (List.mem_cons_self _ _)
    have hcov_cons : ∀ k, coveredB (m :: ms2) k =
        ((decide (m.start ≤ k) && decide (k < m.stop)) || coveredB ms2 k) := by
      intro k; simp [coveredB]
    rw [applyMatches]
    by_cases hseen : (m.start, m.stop) ∈ seen
    · rw [if_pos hseen]
      obtain ⟨hL, hP⟩ := ih txt seen (fun x hx => hshape x (List.mem_cons_of_mem _ hx)) hlen hinv
      refine ⟨hL, fun k hk => ?_⟩
      rw [hP k hk, hcov_cons]
      congr 1
      cases hc : (decide (m.start ≤ k) && decide (k < m.stop)) with
      | false => simp
      | true =>
        have : spanCovB seen k = true := by
          rw [spanCovB, List.any_eq_true]
          exact ⟨(m.start, m.stop), hseen, hc⟩
        simp [this]
    · rw [if_neg hseen]
      set txt2 := replaceSpan txt m.start (List.replicate m.word.length starC) m.stop with htxt2
      have hse : m.start ≤ m.stop := by omega
      have heL : m.stop ≤ txt.length := by omega
      have hrl : (List.replicate m.word.length starC).length = m.stop - m.start := by
        rw [List.length_replicate]; omega
      have hlen2 : txt2.length = text.length := by
        rw [htxt2, replaceSpan_length txt _ _ _ hse heL hrl, hlen]
      have hinv2 : ∀ k, k < text.length →
          txt2[k]? = if spanCovB ((m.start, m.stop) :: seen) k then some starC
            else text[k]? := by
        intro k hk
        rw [htxt2, replaceSpan_getElem txt _ _ _ hse heL hrl k]
        by_cases hin : m.start ≤ k ∧ k < m.stop
        · rw [if_pos hin]
          have hcv : spanCovB ((m.start, m.stop) :: seen) k = true := by
            rw [spanCovB, List.any_eq_true]
            exact ⟨(m.start, m.stop), List.mem_cons_self _ _, by
              simp [hin.1, hin.2]⟩
          rw [if_pos hcv, List.getElem?_replicate, if_pos (by omega)]
        · rw [if_neg hin, hinv k hk]
          have hcv : spanCovB ((m.start, m.stop) :: seen) k = spanCovB seen k := by
            simp only [spanCovB, List.any_cons]
            have : (decide (m.start ≤ k) && decide (k < m.stop)) = false := by
              rcases Decidable.not_and_iff_or_not.mp hin with h | h <;> simp [h]
            rw [this, Bool.false_or]
          rw [hcv]
      obtain ⟨hL, hP⟩ := ih txt2 ((m.start, m.stop) :: seen)
        (fun x hx => hshape x (List.mem_cons_of_mem _ hx)) hlen2 hinv2
      refine ⟨hL, fun k hk => ?_⟩
      rw [hP k hk, hcov_cons]
      congr 1
      simp only [spanCovB, List.any_cons, coveredB]
      cases hd : (decide (m.start ≤ k) && decide (k < m.stop)) <;>
        cases hs2 : List.any seen (fun p => decide (p.1 ≤ k) && decide (k < p.2)) <;>
        simp [hd, hs2, spanCovB, coveredB]

theorem insertByLenDesc_perm (m : WMatch) (l : List WMatch) :
    List.Perm (insertByLenDesc m l) (m :: l) := by
  induction l with
  | nil => exact List.Perm.refl _
  | cons y ys ih =>
    rw [insertByLenDesc]
    by_cases h : m.word.length ≥ y.word.length
    · rw [if_pos h]
    · rw [if_neg h]
      exact List.Perm.trans (List.Perm.cons y ih) (List.Perm.swap _ _ _)

theorem sortByLenDesc_perm (l : List WMatch) : List.Perm (sortByLenDesc l) l := by
  induction l with
  | nil => exact List.Perm.refl _
  | cons m ms ih =>
    rw [sortByLenDesc]
    exact List.Perm.trans (insertByLenDesc_perm m _) (List.Perm.cons m ih)

theorem coveredB_perm {l1 l2 : List WMatch} (h : List.Perm l1 l2) (k : Nat) :
    coveredB l1 k = coveredB l2 k := by
  rw [coveredB, coveredB]
  cases ha : l1.any (fun m => decide (m.start ≤ k) && decide (k < m.stop)) with
  | true =>
    obtain ⟨m, hm, hp⟩ := List.any_eq_true.mp ha
    exact (List.any_eq_true.mpr ⟨m, h.mem_iff.mp hm, hp⟩).symm
  | false =>
    by_contra hne
    have hb : l2.any (fun m => decide (m.start ≤ k) && decide (k < m.stop)) = true := by
      cases hb2 : l2.any (fun m => decide (m.start ≤ k) && decide (k < m.stop)) with
      | true => rfl
      | false => rw [hb2] at hne; exact absurd rfl hne
    obtain ⟨m, hm, hp⟩ := List.any_eq_true.mp hb
    rw [List.any_eq_false] at ha
    exact absurd hp (by simpa using ha m (h.mem_iff.mpr hm))

/-- Full output characterization of `Trie.filter`: the output has the same
length as the input, every position covered by some reported match is the
mask character, and every other position is the original character. -/
theorem filter_getElem (root : TrieNode) (text : Str) :
    (Trie.filter root text).length = text.length ∧
      ∀ k, k < text.length → (Trie.filter root text)[k]? =
        if coveredB (Trie.check root text) k then some starC else text[k]? := by
  rw [Trie.filter]
  by_cases hemp : (Trie.check root text).isEmpty
  · rw [if_pos hemp]
    have : Trie.check root text = [] := List.isEmpty_iff.mp hemp
    refine ⟨rfl, fun k hk => ?_⟩
    rw [this]
    simp [coveredB]
  · rw [if_neg hemp]
    have hperm := sortByLenDesc_perm (Trie.check root text)
    have hshape : ∀ m ∈ sortByLenDesc (Trie.check root text),
        m.stop = m.start + m.word.length ∧ m.stop ≤ text.length := by
      intro m hm
      exact check_shape root text m (hperm.mem_iff.mp hm)
    obtain ⟨hL, hP⟩ := applyMatches_getElem text (sortByLenDesc (Trie.check root text))
      text [] hshape rfl (by intro k _; simp [spanCovB])
    refine ⟨hL, fun k hk => ?_⟩
    rw [hP k hk]
    simp only [spanCovB, List.any_nil, Bool.false_or]
    rw [coveredB_perm hperm k]

/-- Pointwise form of substring occurrence. -/
theorem sublistAt_iff (w t : Str) (s : Nat) :
    sublistAt w t s ↔ (s + w.length ≤ t.length ∧
      ∀ i, i < w.length → t[s + i]? = w[i]?) := by
  rw [sublistAt]
  constructor
  · rintro ⟨hle, heq⟩
    refine ⟨hle, fun i hi => ?_⟩
    have := congrArg (fun l => l[i]?) heq
    simp only [List.getElem?_take, List.getElem?_drop, if_pos hi] at this
    exact this
  · rintro ⟨hle, h⟩
    refine ⟨hle, List.ext_getElem? fun i => ?_⟩
    by_cases hi : i < w.length
    · rw [List.getElem?_take, if_pos hi, List.getElem?_drop, h i hi]
    · rw [List.getElem?_take, if_neg hi]
      exact (List.getElem?_eq_none (by omega)).symm

/-! ## C3: masking removes every forbidden word -/

/-- C3: for an automaton built from forbidden words not containing the mask
character, and any text containing at least one of the words, the output of
the masking filter does not contain any configured word as a contiguous
substring. -/
theorem c3_mask_removes_words (ws : List Str) (text : Str)
    (hstar : ∀ w ∈ ws, starC ∉ w) (hne : ∀ w ∈ ws, w ≠ [])
    (hcontains : ∃ w ∈ ws, containsSub text w) :
    ∀ w ∈ ws, ¬ containsSub (Trie.filter (buildTrie ws) text) w := by
  intro w hw hsub
  obtain ⟨s, hocc⟩ := hsub
  obtain ⟨hL, hP⟩ := filter_getElem (buildTrie ws) text
  have hwne : w ≠ [] := hne w hw
  have hwpos : 0 < w.length := List.length_pos.mpr hwne
  rw [sublistAt_iff] at hocc
  obtain ⟨hle, hidx⟩ := hocc
  have hleT : s + w.length ≤ text.length := by rw [hL] at hle; exact hle
  have hstarw : ∀ i, i < w.length → w[i]? ≠ some starC := by
    intro i hi hcontra
    exact hstar w hw (List.getElem?_mem hcontra)
  have htext : ∀ i, i < w.length → text[s + i]? = w[i]? := by
    intro i hi
    have hki : s + i < text.length := by omega
    have hpk := hP (s + i) hki
    by_cases hcov : coveredB (Trie.check (buildTrie ws) text) (s + i) = true
    · rw [if_pos hcov] at hpk
      exact absurd (by rw [← hidx i hi, hpk]) (hstarw i hi).symm
    · rw [if_neg hcov] at hpk
      rw [← hpk]
      exact hidx i hi
  have hoccT : sublistAt w text s := (sublistAt_iff w text s).mpr ⟨hleT, htext⟩
  have hacc := buildTrie_accepts ws w hw
  have hmm := check_complete (buildTrie ws) text w s hacc hwne hoccT
  have hcov : coveredB (Trie.check (buildTrie ws) text) s = true := by
    rw [coveredB, List.any_eq_true]
    refine ⟨⟨w, s, s + w.length⟩, hmm, ?_⟩
    simp only [Bool.and_eq_true, decide_eq_true_eq]
    omega
  have h0 := hP s (by omega)
  rw [if_pos hcov] at h0
  have hw0 := hidx 0 hwpos
  rw [Nat.add_zero] at hw0
  rw [h0] at hw0
  exact (hstarw 0 hwpos) hw0.symm

/-- Witness for C3: the word "ab" no longer occurs after masking "zab". -/
theorem c3_mask_removes_words_witness :
    ¬ containsSub (Trie.filter (buildTrie [['a', 'b']]) ['z', 'a', 'b']) ['a', 'b'] :=
  c3_mask_removes_words [['a', 'b']] ['z', 'a', 'b']
    (by decide) (by decide) (by decide) ['a', 'b'] (by decide)

/-! ## C8: the longer of two nested forbidden words is masked as one span -/

/-- C8: with forbidden words `w1` and `w1 ++ r` (one a proper prefix of the
other), masking a text containing an occurrence of the longer word masks its
whole span with the mask character (a run of the longer word's length), the
output keeps the text's length, and a text that is exactly the longer word
becomes exactly one run of mask characters. -/
theorem c8_longest_match_wins (w1 r text : Str) (s : Nat)
    (hw1 : w1 ≠ []) (hr : r ≠ [])
    (hocc : sublistAt (w1 ++ r) text s) :
    (Trie.filter (buildTrie [w1, w1 ++ r]) text).length = text.length ∧
    (∀ k, s ≤ k → k < s + (w1 ++ r).length →
      (Trie.filter (buildTrie [w1, w1 ++ r]) text)[k]? = some starC) ∧
    (text = w1 ++ r →
      Trie.filter (buildTrie [w1, w1 ++ r]) text =
        List.replicate (w1 ++ r).length starC) := by
  obtain ⟨hL, hP⟩ := filter_getElem (buildTrie [w1, w1 ++ r]) text
  have hw2ne : w1 ++ r ≠ [] := by
    intro h
    exact hw1 (List.append_eq_nil.mp h).1
  have hacc := buildTrie_accepts [w1, w1 ++ r] (w1 ++ r) (by simp)
  have hmm := check_complete (buildTrie [w1, w1 ++ r]) text (w1 ++ r) s hacc hw2ne hocc
  have hmask : ∀ k, s ≤ k → k < s + (w1 ++ r).length →
      (Trie.filter (buildTrie [w1, w1 ++ r]) text)[k]? = some starC := by
    intro k h1 h2
    have hk : k < text.length := by
      have := hocc.1
      omega
    have hcov : coveredB (Trie.check (buildTrie [w1, w1 ++ r]) text) k = true := by
      rw [coveredB, List.any_eq_true]
      refine ⟨⟨w1 ++ r, s, s + (w1 ++ r).length⟩, hmm, ?_⟩
      simp only [Bool.and_eq_true, decide_eq_true_eq]
      omega
    rw [hP k hk, if_pos hcov]
  refine ⟨hL, hmask, ?_⟩
  intro htext
  have hs0 : s = 0 := by
    have h1 := hocc.1
    have h2 : 0 < (w1 ++ r).length := List.length_pos.mpr hw2ne
    rw [htext] at h1
    omega
  apply List.ext_getElem?
  intro n
  by_cases hn : n < (w1 ++ r).length
  · rw [hmask n (by omega) (by omega), List.getElem?_replicate, if_pos hn]
  · rw [List.getElem?_eq_none (by rw [hL, htext]; omega),
      List.getElem?_replicate, if_neg hn]

/-- Witness for C8 with words "ab" and "abcd" and text "xabcdy". -/
theorem c8_longest_match_wins_witness :
    (Trie.filter (buildTrie [['a', 'b'], ['a', 'b'] ++ ['c', 'd']])
      ['x', 'a', 'b', 'c', 'd', 'y'])[2]? = some starC ∧
    (Trie.filter (buildTrie [['a', 'b'], ['a', 'b'] ++ ['c', 'd']])
      ['a', 'b', 'c', 'd']) = List.replicate (['a', 'b'] ++ ['c', 'd']).length starC := by
  constructor
  · exact (c8_longest_match_wins ['a', 'b'] ['c', 'd'] ['x', 'a', 'b', 'c', 'd', 'y'] 1
      (by decide) (by decide) (by decide)).2.1 2 (by decide) (by decide)
  · exact (c8_longest_match_wins ['a', 'b'] ['c', 'd'] ['a', 'b', 'c', 'd'] 0
      (by decide) (by decide) (by decide)).2.2 (by decide)

/-! ## C10: filterDanmaku validation behavior -/

theorem Trie.filter_nil (t : TrieNode) : Trie.filter t [] = [] := by
  simp [Trie.filter, Trie.check]

/-- C10 counterexample: `null` is non-string content, yet the filter allows
it (the type guard only fires for truthy values). -/
theorem c10_counterexample :
    (filterDanmaku (some defaultTrie) JsVal.vnull).allowed = true := by decide

/-- C10 (amended): the filter rejects truthy non-string content with a
format error, rejects strings whose trimmed length exceeds 50 with a length
error, the accepted content of a string input is its trimmed form, and falsy
content (including falsy non-strings such as `null`, `undefined`, `0`,
`false` and the empty string) is allowed rather than rejected. -/
theorem c10_amended (trie : Option TrieNode) :
    (∀ v : JsVal, v.truthy = true → v.isStr = false →
      filterDanmaku trie v = ⟨false, "内容格式错误", []⟩) ∧
    (∀ s : Str, (jsTrim s).length > 50 →
      filterDanmaku trie (.vstr s) = ⟨false, "内容长度不能超过50个字符", jsTrim s⟩) ∧
    (∀ s : Str, (filterDanmaku trie (.vstr s)).allowed = true →
      (filterDanmaku trie (.vstr s)).content = jsTrim s) ∧
    (∀ v : JsVal, v.truthy = false → (filterDanmaku trie v).allowed = true) := by
  refine ⟨?_, ?_, ?_, ?_⟩
  · intro v ht hs
    cases v with
    | vstr s => simp [JsVal.isStr] at hs
    | vnum n =>
      have hg : ((JsVal.vnum n).truthy && !(JsVal.vnum n).isStr) = true := by
        simp only [JsVal.isStr, Bool.not_false, Bool.and_true]
        exact ht
      rw [filterDanmaku, if_pos hg]
      case x_2 => intro s2 hc; cases hc
    | vbool b =>
      have hg : ((JsVal.vbool b).truthy && !(JsVal.vbool b).isStr) = true := by
        simp only [JsVal.isStr, Bool.not_false, Bool.and_true]
        exact ht
      rw [filterDanmaku, if_pos hg]
      case x_2 => intro s2 hc; cases hc
    | vnull => simp [JsVal.truthy] at ht
    | vundef => simp [JsVal.truthy] at ht
  · intro s h50
    have hsne : s ≠ [] := by
      intro h
      subst h
      simp [jsTrim] at h50
    have ht : (JsVal.vstr s).truthy = true := by
      simp [JsVal.truthy, hsne]
    have hg1 : ((JsVal.vstr s).truthy && !(JsVal.vstr s).isStr) = false := by
      simp [JsVal.isStr]
    have hg2 : ((JsVal.vstr s).truthy && decide ((jsTrim s).length > 50)) = true := by
      rw [ht]
      simp
      omega
    rw [filterDanmaku, if_neg (by simp [hg1]), if_pos hg2]
  · intro s hall
    have hg1 : ((JsVal.vstr s).truthy && !(JsVal.vstr s).isStr) = false := by
      simp [JsVal.isStr]
    by_cases hg2 : ((JsVal.vstr s).truthy && decide ((jsTrim s).length > 50)) = true
    · rw [filterDanmaku, if_neg (by simp [hg1]), if_pos hg2] at hall
      simp at hall
    · rw [filterDanmaku, if_neg (by simp [hg1]), if_neg hg2] at hall ⊢
      cases trie with
      | none => rfl
      | some t =>
        dsimp only at hall ⊢
        by_cases heq : Trie.filter t (jsTrim s) = jsTrim s
        · rw [if_pos heq]
          exact heq
        · rw [if_neg heq] at hall
          simp at hall
  · intro v ht
    cases v with
    | vstr s =>
      have hs : s = [] := by
        simp only [JsVal.truthy] at ht
        have : s.isEmpty = true := by
          cases he : s.isEmpty with
          | true => rfl
          | false => rw [he] at ht; simp at ht
        exact List.isEmpty_iff.mp this
      subst hs
      have hg1 : ((JsVal.vstr []).truthy && !(JsVal.vstr []).isStr) = false := by
        rw [ht]; rfl
      have hg2 : ((JsVal.vstr []).truthy &&
          decide ((jsTrim []).length > 50)) = false := by
        rw [ht]; rfl
      rw [filterDanmaku, if_neg (by simp [hg1]), if_neg (by simp [hg2])]
      cases trie with
      | none => rfl
      | some t =>
        dsimp only
        have htn : jsTrim ([] : Str) = [] := rfl
        rw [htn, Trie.filter_nil, if_pos rfl]
    | vnum n =>
      have hg1 : ((JsVal.vnum n).truthy && !(JsVal.vnum n).isStr) = false := by
        rw [ht]; rfl
      have hg2 : ((JsVal.vnum n).truthy && decide (([] : Str).length > 50)) = false := by
        rw [ht]; rfl
      rw [filterDanmaku, if_neg (by simp [hg1]), if_neg (by simp [hg2])]
      case x_2 => intro s2 hc; cases hc
      cases trie with
      | none => rfl
      | some t =>
        dsimp only
        rw [Trie.filter_nil, if_pos rfl]
    | vbool b =>
      have hg1 : ((JsVal.vbool b).truthy && !(JsVal.vbool b).isStr) = false := by
        rw [ht]; rfl
      have hg2 : ((JsVal.vbool b).truthy && decide (([] : Str).length > 50)) = false := by
        rw [ht]; rfl
      rw [filterDanmaku, if_neg (by simp [hg1]), if_neg (by simp [hg2])]
      case x_2 => intro s2 hc; cases hc
      cases trie with
      | none => rfl
      | some t =>
        dsimp only
        rw [Trie.filter_nil, if_pos rfl]
    | vnull =>
      rw [filterDanmaku, if_neg (by simp [JsVal.truthy]), if_neg (by simp [JsVal.truthy])]
      case x_2 => intro s2 hc; cases hc
      cases trie with
      | none => rfl
      | some t =>
        dsimp only
        rw [Trie.filter_nil, if_pos rfl]
    | vundef =>
      rw [filterDanmaku, if_neg (by simp [JsVal.truthy]), if_neg (by simp [JsVal.truthy])]
      case x_2 => intro s2 hc; cases hc
      cases trie with
      | none => rfl
      | some t =>
        dsimp only
        rw [Trie.filter_nil, if_pos rfl]

/-- Witness for C10 (amended) at concrete inputs. -/
theorem c10_amended_witness :
    filterDanmaku (some defaultTrie) (.vnum 7) = ⟨false, "内容格式错误", []⟩ ∧
    (filterDanmaku (some defaultTrie) (.vstr ['h', 'i'])).allowed = true ∧
    (filterDanmaku (some defaultTrie) (.vstr ['h', 'i'])).content = jsTrim ['h', 'i'] ∧
    (filterDanmaku (some defaultTrie) JsVal.vundef).allowed = true := by
  have h := c10_amended (some defaultTrie)
  exact ⟨h.1 (.vnum 7) (by decide) (by decide),
    by decide,
    h.2.2.1 ['h', 'i'] (by decide),
    h.2.2.2 JsVal.vundef (by decide)⟩

/-! ## C1: the pipeline rejects sensitive content instead of masking-and-allowing -/

/-- A text containing a configured forbidden word is changed by masking. -/
theorem filter_changes_text (ws : List Str) (t w : Str)
    (hw : w ∈ ws) (hstar : starC ∉ w) (hwne : w ≠ []) (hsub : containsSub t w) :
    Trie.filter (buildTrie ws) t ≠ t := by
  obtain ⟨s0, hocc⟩ := hsub
  obtain ⟨hL, hP⟩ := filter_getElem (buildTrie ws) t
  have hacc := buildTrie_accepts ws w hw
  have hmm := check_complete (buildTrie ws) t w s0 hacc hwne hocc
  have hwpos : 0 < w.length := List.length_pos.mpr hwne
  have hklt : s0 < t.length := by
    have := hocc.1
    omega
  have hcov : coveredB (Trie.check (buildTrie ws) t) s0 = true := by
    rw [coveredB, List.any_eq_true]
    refine ⟨⟨w, s0, s0 + w.length⟩, hmm, ?_⟩
    simp only [Bool.and_eq_true, decide_eq_true_eq]
    omega
  intro heq
  have h0 := hP s0 hklt
  rw [if_pos hcov, heq] at h0
  have hidx := ((sublistAt_iff w t s0).mp hocc).2 0 hwpos
  rw [Nat.add_zero, h0] at hidx
  exact hstar (List.getElem?_mem hidx.symm)

/-- C1 counterexample: content "spam" (a configured forbidden word) is
rejected with a sensitive-content notice; it is not accepted and broadcast
with masked content as the claim states. -/
theorem c1_counterexample :
    (processDanmaku defaultConfig (some defaultTrie) 0 ⟨false, []⟩ "sid" "room1"
      ⟨some "u1", .vstr ['s', 'p', 'a', 'm'], some "text", none⟩).1 =
      ProcResult.sendFailed "内容包含敏感词" := by decide

/-- C1 (amended): for every message whose trimmed textual content contains a
configured forbidden word (and passes the earlier rate and duplicate checks
and the length check), the admission pipeline rejects the message with the
sensitive-content notice; the message is not broadcast. -/
theorem c1_amended_reject_sensitive (cfg : FilterConfig) (ws : List Str) (now : Nat)
    (st : RedisStore) (sid roomId : String) (d : Danmaku) (s w : Str)
    (hc : d.content = .vstr s) (hsne : s ≠ [])
    (hw : w ∈ ws) (hstar : starC ∉ w) (hwne : w ≠ [])
    (hsub : containsSub (jsTrim s) w) (hlen : (jsTrim s).length ≤ 50)
    (hrl : (checkRateLimit cfg now st (effectiveUserId d sid) roomId).1.allowed = true)
    (hdup : (checkDuplicateMessage cfg now
      (checkRateLimit cfg now st (effectiveUserId d sid) roomId).2
      (effectiveUserId d sid) (pipelineCheckContent d)).1.allowed = true) :
    (processDanmaku cfg (some (buildTrie ws)) now st sid roomId d).1 =
      .sendFailed "内容包含敏感词" := by
  have hfil : Trie.filter (buildTrie ws) (jsTrim s) ≠ jsTrim s :=
    filter_changes_text ws (jsTrim s) w hw hstar hwne hsub
  have hfd : (filterDanmaku (some (buildTrie ws)) (.vstr s)).allowed = false := by
    have hg1 : ((JsVal.vstr s).truthy && !(JsVal.vstr s).isStr) = false := by
      simp [JsVal.isStr]
    have hg2 : ((JsVal.vstr s).truthy && decide ((jsTrim s).length > 50)) = false := by
      have : decide ((jsTrim s).length > 50) = false := by
        simp
        omega
      rw [this, Bool.and_false]
    rw [filterDanmaku, if_neg (by simp [hg1]), if_neg (by simp [hg2])]
    dsimp only
    rw [if_neg hfil]
  have htruthy : d.content.truthy = true := by
    rw [hc]
    simp [JsVal.truthy, hsne]
  rw [processDanmaku]
  simp only [hrl, Bool.not_true, Bool.false_eq_true, if_false]
  simp only [hdup, Bool.not_true, Bool.false_eq_true, if_false]
  simp only [htruthy, if_true]
  rw [hc]
  simp only [hfd, Bool.not_false, if_true]

/-- Witness for C1 (amended) at the concrete input of the counterexample. -/
theorem c1_amended_reject_sensitive_witness :
    (processDanmaku defaultConfig (some (buildTrie defaultSensitiveWords)) 0 ⟨false, []⟩
      "sid" "room1" ⟨some "u1", .vstr ['s', 'p', 'a', 'm'], some "text", none⟩).1 =
      ProcResult.sendFailed "内容包含敏感词" :=
  c1_amended_reject_sensitive defaultConfig defaultSensitiveWords 0 ⟨false, []⟩
    "sid" "room1" ⟨some "u1", .vstr ['s', 'p', 'a', 'm'], some "text", none⟩
    ['s', 'p', 'a', 'm'] ['s', 'p', 'a', 'm']
    rfl (by decide) (by decide) (by decide) (by decide) (by decide) (by decide)
    (by decide) (by decide)

/-! ## C2: check order, short-circuiting, and the duplicate check on emotes -/

/-- C2 counterexample: a structured emote message with no text content is
NOT exempt from the duplicate suppressor — with the emote-reference counter
at the limit, the message is rejected as a duplicate (the claim predicts the
duplicate check is skipped for such messages). -/
theorem c2_counterexample :
    (processDanmaku defaultConfig (some defaultTrie) 0
      ⟨true, [("danmaku:" ++ dupKey "u1" (hashString (String.data "[emoji:smile]")),
        ⟨3, 10000⟩)]⟩
      "sid" "room1" ⟨some "u1", .vundef, some "emoji", some "smile"⟩).1 =
      ProcResult.sendFailed "请勿发送重复消息" := by decide

/-- Behavior of one store increment on an available store: the returned value
is the live count plus one, the store stays available, and every other key is
untouched. -/
theorem incrWithExpire_spec (st : RedisStore) (now : Nat) (key : String) (ttl : Nat)
    (hav : st.avail = true) :
    (incrWithExpire st now key ttl).1.value = countLive st now key + 1 ∧
    (incrWithExpire st now key ttl).1.hasRedis = true ∧
    (incrWithExpire st now key ttl).2.avail = true ∧
    ∀ fk, fk ≠ "danmaku:" ++ key →
      assocGet (incrWithExpire st now key ttl).2.entries fk = assocGet st.entries fk := by
  rw [incrWithExpire, hav]
  simp only [Bool.not_true, Bool.false_eq_true, if_false]
  cases hget : assocGet st.entries ("danmaku:" ++ key) with
  | none =>
    refine ⟨?_, rfl, rfl, ?_⟩
    · rw [countLive, hget]
    · intro fk hfk
      exact assocGet_assocSet_ne _ _ _ _ (Ne.symm hfk)
  | some e =>
    dsimp only
    by_cases hexp : now < e.expiresAt
    · rw [if_pos hexp]
      refine ⟨?_, rfl, rfl, ?_⟩
      · simp [countLive, hget, hexp]
      · intro fk hfk
        exact assocGet_assocSet_ne _ _ _ _ (Ne.symm hfk)
    · rw [if_neg hexp]
      refine ⟨?_, rfl, rfl, ?_⟩
      · simp [countLive, hget, hexp]
      · intro fk hfk
        exact assocGet_assocSet_ne _ _ _ _ (Ne.symm hfk)

theorem countLive_of_pres {st1 st2 : RedisStore} (now : Nat) (k : String)
    (h : assocGet st1.entries ("danmaku:" ++ k) = assocGet st2.entries ("danmaku:" ++ k)) :
    countLive st1 now k = countLive st2 now k := by
  rw [countLive, countLive, h]

/-- C2 (amended): the admission pipeline runs its checks sequentially in the
fixed order sender rate limit, room rate limit, duplicate suppressor, content
matcher, short-circuiting with a rejection on the first failing check so that
no later counter is incremented; the duplicate suppressor is NOT skipped for
structured emote messages (it runs over the serialized emote reference), and
the content matcher runs only over textual content — a message with no
truthy text content is broadcast with its content untouched. -/
theorem c2_amended_pipeline_order (cfg : FilterConfig) (trie : Option TrieNode) (now : Nat)
    (st : RedisStore) (sid roomId : String) (d : Danmaku) (hav : st.avail = true) :
    (countLive st now (userRateKey (effectiveUserId d sid)) ≥
        cfg.userRateLimit.messagesPerSecond →
      (processDanmaku cfg trie now st sid roomId d).1 = .sendFailed (userRateReason cfg) ∧
      ∀ fk, fk ≠ "danmaku:" ++ userRateKey (effectiveUserId d sid) →
        assocGet (processDanmaku cfg trie now st sid roomId d).2.entries fk =
          assocGet st.entries fk) ∧
    (countLive st now (userRateKey (effectiveUserId d sid)) <
        cfg.userRateLimit.messagesPerSecond →
     countLive st now (roomRateKey roomId) ≥ cfg.roomRateLimit.messagesPerSecond →
      (processDanmaku cfg trie now st sid roomId d).1 =
        .sendFailed "房间消息过多，请稍后再试" ∧
      ∀ fk, fk ≠ "danmaku:" ++ userRateKey (effectiveUserId d sid) →
        fk ≠ "danmaku:" ++ roomRateKey roomId →
        assocGet (processDanmaku cfg trie now st sid roomId d).2.entries fk =
          assocGet st.entries fk) ∧
    (countLive st now (userRateKey (effectiveUserId d sid)) <
        cfg.userRateLimit.messagesPerSecond →
     countLive st now (roomRateKey roomId) < cfg.roomRateLimit.messagesPerSecond →
     ∀ h, jsHashOf (pipelineCheckContent d) = some h →
     countLive st now (dupKey (effectiveUserId d sid) h) ≥ cfg.maxDuplicateCount →
      (processDanmaku cfg trie now st sid roomId d).1 = .sendFailed "请勿发送重复消息") ∧
    (countLive st now (userRateKey (effectiveUserId d sid)) <
        cfg.userRateLimit.messagesPerSecond →
     countLive st now (roomRateKey roomId) < cfg.roomRateLimit.messagesPerSecond →
     (∀ h, jsHashOf (pipelineCheckContent d) = some h →
       countLive st now (dupKey (effectiveUserId d sid) h) < cfg.maxDuplicateCount) →
      (d.content.truthy = false →
        (processDanmaku cfg trie now st sid roomId d).1 = .broadcast d.content) ∧
      (d.content.truthy = true → (filterDanmaku trie d.content).allowed = true →
        (processDanmaku cfg trie now st sid roomId d).1 =
          .broadcast (.vstr (filterDanmaku trie d.content).content))) := by
  obtain ⟨hv_u, hr_u, ha_u, hp_u⟩ :=
    incrWithExpire_spec st now (userRateKey (effectiveUserId d sid))
      cfg.userRateLimit.timeWindow hav
  refine ⟨?_, ?_, ?_, ?_⟩
  · -- (1) sender-scope denial
    intro hge
    have hcond : ((incrWithExpire st now (userRateKey (effectiveUserId d sid))
        cfg.userRateLimit.timeWindow).1.hasRedis &&
        decide ((incrWithExpire st now (userRateKey (effectiveUserId d sid))
          cfg.userRateLimit.timeWindow).1.value >
          cfg.userRateLimit.messagesPerSecond)) = true := by
      rw [hr_u, hv_u, Bool.true_and, decide_eq_true_eq]
      omega
    have hcrl : checkRateLimit cfg now st (effectiveUserId d sid) roomId =
        (⟨false, userRateReason cfg⟩,
          (incrWithExpire st now (userRateKey (effectiveUserId d sid))
            cfg.userRateLimit.timeWindow).2) := by
      rw [checkRateLimit]
      dsimp only
      rw [if_pos hcond]
    have hpd : processDanmaku cfg trie now st sid roomId d =
        (.sendFailed (userRateReason cfg),
          (incrWithExpire st now (userRateKey (effectiveUserId d sid))
            cfg.userRateLimit.timeWindow).2) := by
      rw [processDanmaku]
      dsimp only
      rw [hcrl]
      rfl
    rw [hpd]
    exact ⟨rfl, hp_u⟩
  · -- (2) room-scope denial after sender passes
    intro hlt hger
    have hcond1 : ((incrWithExpire st now (userRateKey (effectiveUserId d sid))
        cfg.userRateLimit.timeWindow).1.hasRedis &&
        decide ((incrWithExpire st now (userRateKey (effectiveUserId d sid))
          cfg.userRateLimit.timeWindow).1.value >
          cfg.userRateLimit.messagesPerSecond)) = false := by
      rw [hr_u, hv_u, Bool.true_and]
      exact decide_eq_false (by omega)
    obtain ⟨hv_r, hr_r, ha_r, hp_r⟩ :=
      incrWithExpire_spec ((incrWithExpire st now (userRateKey (effectiveUserId d sid))
        cfg.userRateLimit.timeWindow).2) now (roomRateKey roomId)
        cfg.roomRateLimit.timeWindow ha_u
    have hsame : countLive ((incrWithExpire st now (userRateKey (effectiveUserId d sid))
        cfg.userRateLimit.timeWindow).2) now (roomRateKey roomId) =
        countLive st now (roomRateKey roomId) :=
      countLive_of_pres now _ (hp_u _ (Ne.symm (userKey_ne_roomKey _ _)))
    have hcond2 : ((incrWithExpire ((incrWithExpire st now
        (userRateKey (effectiveUserId d sid)) cfg.userRateLimit.timeWindow).2) now
        (roomRateKey roomId) cfg.roomRateLimit.timeWindow).1.hasRedis &&
        decide ((incrWithExpire ((incrWithExpire st now
          (userRateKey (effectiveUserId d sid)) cfg.userRateLimit.timeWindow).2) now
          (roomRateKey roomId) cfg.roomRateLimit.timeWindow).1.value >
          cfg.roomRateLimit.messagesPerSecond)) = true := by
      rw [hr_r, hv_r, hsame, Bool.true_and, decide_eq_true_eq]
      omega
    have hcrl : checkRateLimit cfg now st (effectiveUserId d sid) roomId =
        (⟨false, "房间消息过多，请稍后再试"⟩,
          (incrWithExpire ((incrWithExpire st now (userRateKey (effectiveUserId d sid))
            cfg.userRateLimit.timeWindow).2) now (roomRateKey roomId)
            cfg.roomRateLimit.timeWindow).2) := by
      rw [checkRateLimit]
      dsimp only
      rw [if_neg (by rw [hcond1]; exact Bool.false_ne_true), if_pos hcond2]
    have hpd : processDanmaku cfg trie now st sid roomId d =
        (.sendFailed "房间消息过多，请稍后再试",
          (incrWithExpire ((incrWithExpire st now (userRateKey (effectiveUserId d sid))
            cfg.userRateLimit.timeWindow).2) now (roomRateKey roomId)
            cfg.roomRateLimit.timeWindow).2) := by
      rw [processDanmaku]
      dsimp only
      rw [hcrl]
      rfl
    rw [hpd]
    refine ⟨rfl, fun fk hfk1 hfk2 => ?_⟩
    rw [hp_r fk hfk2]
    exact hp_u fk hfk1
  · -- (3) duplicate denial after both rate scopes pass
    intro hlt hltr h hhash hged
    have hcond1 : ((incrWithExpire st now (userRateKey (effectiveUserId d sid))
        cfg.userRateLimit.timeWindow).1.hasRedis &&
        decide ((incrWithExpire st now (userRateKey (effectiveUserId d sid))
          cfg.userRateLimit.timeWindow).1.value >
          cfg.userRateLimit.messagesPerSecond)) = false := by
      rw [hr_u, hv_u, Bool.true_and]
      exact decide_eq_false (by omega)
    obtain ⟨hv_r, hr_r, ha_r, hp_r⟩ :=
      incrWithExpire_spec ((incrWithExpire st now (userRateKey (effectiveUserId d sid))
        cfg.userRateLimit.timeWindow).2) now (roomRateKey roomId)
        cfg.roomRateLimit.timeWindow ha_u
    have hsame : countLive ((incrWithExpire st now (userRateKey (effectiveUserId d sid))
        cfg.userRateLimit.timeWindow).2) now (roomRateKey roomId) =
        countLive st now (roomRateKey roomId) :=
      countLive_of_pres now _ (hp_u _ (Ne.symm (userKey_ne_roomKey _ _)))
    have hcond2 : ((incrWithExpire ((incrWithExpire st now
        (userRateKey (effectiveUserId d sid)) cfg.userRateLimit.timeWindow).2) now
        (roomRateKey roomId) cfg.roomRateLimit.timeWindow).1.hasRedis &&
        decide ((incrWithExpire ((incrWithExpire st now
          (userRateKey (effectiveUserId d sid)) cfg.userRateLimit.timeWindow).2) now
          (roomRateKey roomId) cfg.roomRateLimit.timeWindow).1.value >
          cfg.roomRateLimit.messagesPerSecond)) = false := by
      rw [hr_r, hv_r, hsame, Bool.true_and]
      exact decide_eq_false (by omega)
    have hcrl : checkRateLimit cfg now st (effectiveUserId d sid) roomId =
        (⟨true, "通过频率限制"⟩,
          (incrWithExpire ((incrWithExpire st now (userRateKey (effectiveUserId d sid))
            cfg.userRateLimit.timeWindow).2) now (roomRateKey roomId)
            cfg.roomRateLimit.timeWindow).2) := by
      rw [checkRateLimit]
      dsimp only
      rw [if_neg (by rw [hcond1]; exact Bool.false_ne_true),
        if_neg (by rw [hcond2]; exact Bool.false_ne_true)]
    obtain ⟨hv_d, hr_d, ha_d, hp_d⟩ :=
      incrWithExpire_spec ((incrWithExpire ((incrWithExpire st now
        (userRateKey (effectiveUserId d sid)) cfg.userRateLimit.timeWindow).2) now
        (roomRateKey roomId) cfg.roomRateLimit.timeWindow).2) now
        (dupKey (effectiveUserId d sid) h) cfg.duplicateTimeWindow ha_r
    have hsamed : countLive ((incrWithExpire ((incrWithExpire st now
        (userRateKey (effectiveUserId d sid)) cfg.userRateLimit.timeWindow).2) now
        (roomRateKey roomId) cfg.roomRateLimit.timeWindow).2) now
        (dupKey (effectiveUserId d sid) h) =
        countLive st now (dupKey (effectiveUserId d sid) h) := by
      refine Eq.trans (countLive_of_pres now _ (hp_r _ (dupKey_ne_roomKey _ _ _)))
        (countLive_of_pres now _ (hp_u _ (dupKey_ne_userKey _ _ _)))
    have hcond3 : ((incrWithExpire ((incrWithExpire ((incrWithExpire st now
        (userRateKey (effectiveUserId d sid)) cfg.userRateLimit.timeWindow).2) now
        (roomRateKey roomId) cfg.roomRateLimit.timeWindow).2) now
        (dupKey (effectiveUserId d sid) h) cfg.duplicateTimeWindow).1.hasRedis &&
        decide ((incrWithExpire ((incrWithExpire ((incrWithExpire st now
          (userRateKey (effectiveUserId d sid)) cfg.userRateLimit.timeWindow).2) now
          (roomRateKey roomId) cfg.roomRateLimit.timeWindow).2) now
          (dupKey (effectiveUserId d sid) h) cfg.duplicateTimeWindow).1.value >
          cfg.maxDuplicateCount)) = true := by
      rw [hr_d, hv_d, hsamed, Bool.true_and, decide_eq_true_eq]
      omega
    have hcdm : checkDuplicateMessage cfg now ((incrWithExpire ((incrWithExpire st now
        (userRateKey (effectiveUserId d sid)) cfg.userRateLimit.timeWindow).2) now
        (roomRateKey roomId) cfg.roomRateLimit.timeWindow).2)
        (effectiveUserId d sid) (pipelineCheckContent d) =
        (⟨false, "重复消息过多"⟩,
          (incrWithExpire ((incrWithExpire ((incrWithExpire st now
            (userRateKey (effectiveUserId d sid)) cfg.userRateLimit.timeWindow).2) now
            (roomRateKey roomId) cfg.roomRateLimit.timeWindow).2) now
            (dupKey (effectiveUserId d sid) h) cfg.duplicateTimeWindow).2) := by
      rw [checkDuplicateMessage, hhash]
      dsimp only
      rw [if_pos hcond3]
    rw [processDanmaku]
    dsimp only
    rw [hcrl]
    dsimp only
    rw [hcdm]
    rfl
  · -- (4) everything passes: the matcher only sees textual content
    intro hlt hltr hdlt
    have hcond1 : ((incrWithExpire st now (userRateKey (effectiveUserId d sid))
        cfg.userRateLimit.timeWindow).1.hasRedis &&
        decide ((incrWithExpire st now (userRateKey (effectiveUserId d sid))
          cfg.userRateLimit.timeWindow).1.value >
          cfg.userRateLimit.messagesPerSecond)) = false := by
      rw [hr_u, hv_u, Bool.true_and]
      exact decide_eq_false (by omega)
    obtain ⟨hv_r, hr_r, ha_r, hp_r⟩ :=
      incrWithExpire_spec ((incrWithExpire st now (userRateKey (effectiveUserId d sid))
        cfg.userRateLimit.timeWindow).2) now (roomRateKey roomId)
        cfg.roomRateLimit.timeWindow ha_u
    have hsame : countLive ((incrWithExpire st now (userRateKey (effectiveUserId d sid))
        cfg.userRateLimit.timeWindow).2) now (roomRateKey roomId) =
        countLive st now (roomRateKey roomId) :=
      countLive_of_pres now _ (hp_u _ (Ne.symm (userKey_ne_roomKey _ _)))
    have hcond2 : ((incrWithExpire ((incrWithExpire st now
        (userRateKey (effectiveUserId d sid)) cfg.userRateLimit.timeWindow).2) now
        (roomRateKey roomId) cfg.roomRateLimit.timeWindow).1.hasRedis &&
        decide ((incrWithExpire ((incrWithExpire st now
          (userRateKey (effectiveUserId d sid)) cfg.userRateLimit.timeWindow).2) now
          (roomRateKey roomId) cfg.roomRateLimit.timeWindow).1.value >
          cfg.roomRateLimit.messagesPerSecond)) = false := by
      rw [hr_r, hv_r, hsame, Bool.true_and]
      exact decide_eq_false (by omega)
    have hcrl : checkRateLimit cfg now st (effectiveUserId d sid) roomId =
        (⟨true, "通过频率限制"⟩,
          (incrWithExpire ((incrWithExpire st now (userRateKey (effectiveUserId d sid))
            cfg.userRateLimit.timeWindow).2) now (roomRateKey roomId)
            cfg.roomRateLimit.timeWindow).2) := by
      rw [checkRateLimit]
      dsimp only
      rw [if_neg (by rw [hcond1]; exact Bool.false_ne_true),
        if_neg (by rw [hcond2]; exact Bool.false_ne_true)]
    have hdall : (checkDuplicateMessage cfg now ((incrWithExpire ((incrWithExpire st now
        (userRateKey (effectiveUserId d sid)) cfg.userRateLimit.timeWindow).2) now
        (roomRateKey roomId) cfg.roomRateLimit.timeWindow).2)
        (effectiveUserId d sid) (pipelineCheckContent d)).1.allowed = true := by
      rw [checkDuplicateMessage]
      cases hhh : jsHashOf (pipelineCheckContent d) with
      | none => rfl
      | some h =>
        dsimp only
        obtain ⟨hv_d, hr_d, ha_d, hp_d⟩ :=
          incrWithExpire_spec ((incrWithExpire ((incrWithExpire st now
            (userRateKey (effectiveUserId d sid)) cfg.userRateLimit.timeWindow).2) now
            (roomRateKey roomId) cfg.roomRateLimit.timeWindow).2) now
            (dupKey (effectiveUserId d sid) h) cfg.duplicateTimeWindow ha_r
        have hsamed : countLive ((incrWithExpire ((incrWithExpire st now
            (userRateKey (effectiveUserId d sid)) cfg.userRateLimit.timeWindow).2) now
            (roomRateKey roomId) cfg.roomRateLimit.timeWindow).2) now
            (dupKey (effectiveUserId d sid) h) =
            countLive st now (dupKey (effectiveUserId d sid) h) :=
          Eq.trans (countLive_of_pres now _ (hp_r _ (dupKey_ne_roomKey _ _ _)))
            (countLive_of_pres now _ (hp_u _ (dupKey_ne_userKey _ _ _)))
        have hcond3 : ((incrWithExpire ((incrWithExpire ((incrWithExpire st now
            (userRateKey (effectiveUserId d sid)) cfg.userRateLimit.timeWindow).2) now
            (roomRateKey roomId) cfg.roomRateLimit.timeWindow).2) now
            (dupKey (effectiveUserId d sid) h) cfg.duplicateTimeWindow).1.hasRedis &&
            decide ((incrWithExpire ((incrWithExpire ((incrWithExpire st now
              (userRateKey (effectiveUserId d sid)) cfg.userRateLimit.timeWindow).2) now
              (roomRateKey roomId) cfg.roomRateLimit.timeWindow).2) now
              (dupKey (effectiveUserId d sid) h) cfg.duplicateTimeWindow).1.value >
              cfg.maxDuplicateCount)) = false := by
          rw [hr_d, hv_d, hsamed, Bool.true_and]
          exact decide_eq_false (by have := hdlt h hhh; omega)
        rw [if_neg (by rw [hcond3]; exact Bool.false_ne_true)]
    constructor
    · intro hfalsy
      rw [processDanmaku]
      dsimp only
      rw [hcrl]
      dsimp only
      simp only [hdall, Bool.not_true, Bool.false_eq_true, if_false]
      simp only [hfalsy, Bool.false_eq_true, if_false]
    · intro htruthy hfallow
      rw [processDanmaku]
      dsimp only
      rw [hcrl]
      dsimp only
      simp only [hdall, Bool.not_true, Bool.false_eq_true, if_false]
      simp only [htruthy, if_true]
      simp only [hfallow, Bool.not_true, Bool.false_eq_true, if_false]

/-- Witness for C2 (amended): an emote message with the emote-reference
duplicate counter at the limit is rejected as a duplicate. -/
theorem c2_amended_pipeline_order_witness :
    (processDanmaku defaultConfig (some defaultTrie) 0
      ⟨true, [("danmaku:" ++ dupKey "u1" (hashString (String.data "[emoji:smile]")),
        ⟨3, 10000⟩)]⟩
      "sid" "room1" ⟨some "u1", .vundef, some "emoji", some "smile"⟩).1 =
      ProcResult.sendFailed "请勿发送重复消息" := by
  have h := c2_amended_pipeline_order defaultConfig (some defaultTrie) 0
    ⟨true, [("danmaku:" ++ dupKey "u1" (hashString (String.data "[emoji:smile]")),
      ⟨3, 10000⟩)]⟩
    "sid" "room1" ⟨some "u1", .vundef, some "emoji", some "smile"⟩ rfl
  exact h.2.2.1 (by decide) (by decide)
    (hashString (String.data "[emoji:smile]")) (by decide) (by decide)
